import Mathlib

/-!
# Patch compiler of the App Mesh sidecar injector (`pkg/patch/patch.go`)

A shallow embedding of `GeneratePatch` and its helpers, followed by theorems
about the JSON-Patch operations it emits.

Modelling conventions

* A Go `string` is a Lean `String`.  The only byte-level operation the source
  performs is `strings.ReplaceAll` with one-byte ASCII patterns, which agrees
  with the character-level replacement on UTF-8 text.
* A Go `map[string]string` is `Option GoMap`: `none` is the nil map, and
  `some m` is a map whose entries are the association list `m`.
* A function returning `(T, error)` returns `Except GoError T`.
* Each `fmt.Sprintf` template of the source is one constructor of `Patch`;
  `Patch.render` is the text the template produces, and `Patch.op`,
  `Patch.path`, `Patch.value` are the three members of that JSON object.
* The renderers (`renderInit`, `renderSidecars`, ...) and the constants of
  package `config` live outside `patch.go`; they are the fields of `Env`.
-/

namespace patch

/-! ## Strings -/

/-- Scanning loop of `strings.ReplaceAll` for a non-empty pattern: `skip` counts the
characters of an already matched occurrence still to be dropped. -/
def replaceAllLoop (old new : List Char) : Nat → List Char → List Char
  | _, [] => []
  | skip + 1, _ :: t => replaceAllLoop old new skip t
  | 0, c :: t =>
    if old.isPrefixOf (c :: t) then new ++ replaceAllLoop old new (old.length - 1) t
    else c :: replaceAllLoop old new 0 t

/-- Go's `strings.ReplaceAll(s, old, new)`: every non-overlapping occurrence of
`old`, found left to right, is replaced by `new`.  An empty `old` matches before
every character and at the end. -/
def replaceAll (s old new : String) : String :=
  match old.data with
  | [] => ⟨new.data ++ s.data.flatMap (fun c => c :: new.data)⟩
  | o :: os => ⟨replaceAllLoop (o :: os) new.data 0 s.data⟩

/-- Source: `escapeJSONPointer`. -/
def escapeJSONPointer (key : String) : String :=
  let s0 := replaceAll key "~" "~0"
  replaceAll s0 "/" "~1"

/-- The reverse substitution of `escapeJSONPointer` (RFC 6901 decoding): first
`~1` becomes `/`, then `~0` becomes `~`. -/
def unescapeJSONPointer (s : String) : String :=
  replaceAll (replaceAll s "~1" "/") "~0" "~"

/-- The escaped form of one character: `~` becomes `~0`, `/` becomes `~1`, any other
character is kept. -/
def escapeChar (c : Char) : List Char :=
  if c = '~' then ['~', '0'] else if c = '/' then ['~', '1'] else [c]

/-- The image of one character once `~1` has been decoded: only `~` is still escaped. -/
def tildeChar (c : Char) : List Char :=
  if c = '~' then ['~', '0'] else [c]

/-- The string `s` starts with `pre` (Go's `strings.HasPrefix`). -/
def hasPrefix (s pre : String) : Bool := pre.data.isPrefixOf s.data

/-! ## Go maps -/

/-- An error value (Go's `error`), identified with its message. -/
abbrev GoError := String

/-- The entries of a non-nil `map[string]string`; the first entry of a key is its binding. -/
abbrev GoMap := List (String × String)

/-- The comma-ok lookup `v, ok := m[key]`; a nil map has no key. -/
def mapGet (m : Option GoMap) (key : String) : Option String :=
  match m with
  | none => none
  | some entries => entries.lookup key

/-- The plain index expression `m[key]`: the zero value `""` when the key is missing. -/
def mapIndex (m : Option GoMap) (key : String) : String :=
  (mapGet m key).getD ""

/-- The assignment `m[key] = value`. -/
def mapInsert (m : GoMap) (key value : String) : GoMap :=
  match m with
  | [] => [(key, value)]
  | (k, v) :: rest => if k = key then (key, value) :: rest else (k, v) :: mapInsert rest key value

/-- A map literal `map[string]string{k1: v1, ...}`: the entries are stored one after the other. -/
def mapLiteral (entries : List (String × String)) : GoMap :=
  entries.foldl (fun m kv => mapInsert m kv.1 kv.2) []

/-! ## Data model -/

/-- The constants of package `config` that `patch.go` reads (declared outside this file). -/
structure Config where
  AppMeshCNIAnnotation : String
  FargateProfileLabel : String
  AppMeshEgressIgnoredIPsAnnotation : String
  AppMeshEgressIgnoredPortsAnnotation : String
  AppMeshPortsAnnotation : String
  AppMeshSidecarInjectAnnotation : String
  AppMeshIgnoredUIDAnnotation : String
  AppMeshProxyEgressPortAnnotation : String
  AppMeshProxyIngressPortAnnotation : String
  AppMeshProxyUID : String
  AppMeshProxyEgressPort : String
  AppMeshProxyIngressPort : String

/-- The fields of `InitMeta` that `patch.go` reads; the type is declared next to `renderInit`. -/
structure InitMeta where
  Ports : String
  EgressIgnoredPorts : String
  IgnoredIPs : String
deriving DecidableEq, Repr

/-- One secret to mount into the proxy container: a secret name and a mount path. -/
structure SecretMount where
  SecretName : String
  MountPath : String
deriving DecidableEq, Repr

/-- The fields of `SidecarMeta` that `patch.go` reads. -/
structure SidecarMeta where
  EnableDatadogTracing : Bool
  DatadogAddress : String
  DatadogPort : String
  EnableJaegerTracing : Bool
  JaegerAddress : String
  JaegerPort : String
  SecretMounts : List SecretMount
deriving DecidableEq, Repr

/-- The fields of `metav1.ObjectMeta` that `patch.go` reads. -/
structure ObjectMeta where
  Annotations : Option GoMap
  Labels : Option GoMap
deriving DecidableEq, Repr

/-- An entry of `PodSpec.Volumes`; only the number of entries is observed. -/
structure Volume where
  Name : String
deriving DecidableEq, Repr

/-- The fields of `corev1.PodSpec` that `patch.go` reads. -/
structure PodSpec where
  Volumes : List Volume
  AutomountServiceAccountToken : Option Bool
deriving DecidableEq, Repr

/-- Source: `type Meta struct`. -/
structure Meta where
  AppendInit : Bool
  AppendSidecar : Bool
  AppendImagePullSecret : Bool
  HasImagePullSecret : Bool
  InjectFSGroup : Bool
  Init : InitMeta
  Sidecar : SidecarMeta
  PodMetadata : ObjectMeta
  PodSpec : PodSpec
deriving DecidableEq, Repr

/-- What `GeneratePatch` uses from outside `patch.go`: the constants of package
`config`, the template renderers of package `patch`, and the order in which a
`range` statement visits the entries of a map (left open by the language). -/
structure Env where
  config : Config
  renderInit : InitMeta → Except GoError String
  renderSidecars : SidecarMeta → Except GoError (List String)
  renderDatadogConfigVolume : String
  renderDatadogInitContainer : String → String → Except GoError String
  renderJaegerConfigVolume : String
  renderJaegerInitContainer : String → String → Except GoError String
  renderSecretVolumeMount : SecretMount → Except GoError String
  renderSecretVolume : SecretMount → Except GoError String
  rangeOrder : GoMap → GoMap

/-! ## Patch operations -/

/-- One element of `patches`: the `fmt.Sprintf` template that produced it, with its arguments. -/
inductive Patch where
  /-- Template `create`. -/
  | create (coll value : String)
  /-- Template `createElement`. -/
  | createElement (coll value : String)
  /-- Template `add`. -/
  | add (coll value : String)
  /-- Template `createAnnotation`. -/
  | createAnnotation (key value : String)
  /-- Template `updateAnnotation`. -/
  | updateAnnotation (op key value : String)
deriving DecidableEq, Repr

/-- The text `fmt.Sprintf` produces for the template and its arguments. -/
def Patch.render : Patch → String
  | Patch.create coll value =>
    "\x7b\"op\":\"add\",\"path\":\"/spec/" ++ coll ++ "\", \"value\": [" ++ value ++ "]\x7d"
  | Patch.createElement coll value =>
    "\x7b\"op\":\"add\",\"path\":\"/spec/" ++ coll ++ "\", \"value\": " ++ value ++ "\x7d"
  | Patch.add coll value =>
    "\x7b\"op\":\"add\",\"path\":\"/spec/" ++ coll ++ "/-\", \"value\": " ++ value ++ "\x7d"
  | Patch.createAnnotation key value =>
    "\x7b\"op\":\"add\",\"path\":\"/metadata/annotations\",\"value\":\x7b\"" ++ key ++ "\": \""
      ++ value ++ "\"\x7d\x7d"
  | Patch.updateAnnotation op key value =>
    "\x7b\"op\":\"" ++ op ++ "\",\"path\":\"/metadata/annotations/" ++ key
      ++ "\",\"value\":\"" ++ value ++ "\"\x7d"

/-- The `"op"` member of the operation. -/
def Patch.op : Patch → String
  | Patch.create _ _ => "add"
  | Patch.createElement _ _ => "add"
  | Patch.add _ _ => "add"
  | Patch.createAnnotation _ _ => "add"
  | Patch.updateAnnotation op _ _ => op

/-- The `"path"` member of the operation. -/
def Patch.path : Patch → String
  | Patch.create coll _ => "/spec/" ++ coll
  | Patch.createElement coll _ => "/spec/" ++ coll
  | Patch.add coll _ => "/spec/" ++ coll ++ "/-"
  | Patch.createAnnotation _ _ => "/metadata/annotations"
  | Patch.updateAnnotation _ key _ => "/metadata/annotations/" ++ key

/-- The `"value"` member of the operation, as JSON text. -/
def Patch.value : Patch → String
  | Patch.create _ value => "[" ++ value ++ "]"
  | Patch.createElement _ value => value
  | Patch.add _ value => value
  | Patch.createAnnotation key value => "\x7b\"" ++ key ++ "\": \"" ++ value ++ "\"\x7d"
  | Patch.updateAnnotation _ _ value => "\"" ++ value ++ "\""

/-- Source: `ecrSecret`. -/
def ecrSecret : String := "\x7b\"name\": \"appmesh-ecr-secret\"\x7d"

/-- Source: `defaultFSGroup`. -/
def defaultFSGroup : Int := 1337

/-! ## The functions of `patch.go` -/

/-- Source: `podFSGroupPatch`. -/
def podFSGroupPatch (fsGroup : Int) : Patch :=
  Patch.createElement "securityContext/fsGroup" (toString fsGroup)

/-- Body of the `range` loop of `annotationsPatches`: `entries` are the entries of
`newAnnotations` still to be visited, in visiting order; the loop variables are
`existingAnnotations` and `patches`. -/
def annotationsLoop :
    List (String × String) → Option GoMap → List Patch → List Patch
  | [], _, patches => patches
  | (key, value) :: entries, existingAnnotations, patches =>
    match existingAnnotations with
    | none =>
      annotationsLoop entries (some []) (patches ++ [ Patch.createAnnotation key value])
    | some existing =>
      let op := if mapIndex (some existing) key ≠ "" then "replace" else "add"
      annotationsLoop entries (some existing)
        (patches ++ [ Patch.updateAnnotation op (escapeJSONPointer key) value])

/-- Source: `annotationsPatches`.  `newAnnotations` lists the entries of the map in
the order the `range` statement visits them. -/
def annotationsPatches (existingAnnotations : Option GoMap)
    (newAnnotations : List (String × String)) : List Patch :=
  annotationsLoop newAnnotations existingAnnotations []

/-- The `key: value` pairs of the map literal of `appMeshCNIAnnotationsPatch`, as written. -/
def newAnnotationEntries (cfg : Config) (m : Meta) : List (String × String) :=
  [( cfg.AppMeshEgressIgnoredIPsAnnotation, m.Init.IgnoredIPs),
   ( cfg.AppMeshEgressIgnoredPortsAnnotation, m.Init.EgressIgnoredPorts),
   ( cfg.AppMeshPortsAnnotation, m.Init.Ports),
   ( cfg.AppMeshSidecarInjectAnnotation, "enabled"),
   ( cfg.AppMeshIgnoredUIDAnnotation, cfg.AppMeshProxyUID),
   ( cfg.AppMeshProxyEgressPortAnnotation, cfg.AppMeshProxyEgressPort),
   ( cfg.AppMeshProxyIngressPortAnnotation, cfg.AppMeshProxyIngressPort)]

/-- The map `newAnnotations` of `appMeshCNIAnnotationsPatch`. -/
def newAnnotations (cfg : Config) (m : Meta) : GoMap :=
  mapLiteral (newAnnotationEntries cfg m)

/-- Source: `appMeshCNIAnnotationsPatch`. -/
def appMeshCNIAnnotationsPatch (env : Env) (m : Meta) : List Patch :=
  annotationsPatches m.PodMetadata.Annotations (env.rangeOrder (newAnnotations env.config m))

/-- Source: `isAppMeshCNIEnabled`.  `len(v) > 0` counts bytes, and is positive exactly
when `v` has a character. -/
def isAppMeshCNIEnabled (cfg : Config) (m : Meta) : Bool :=
  match mapGet m.PodMetadata.Annotations cfg.AppMeshCNIAnnotation with
  | some v => v == "enabled"
  | none =>
    match mapGet m.PodMetadata.Labels cfg.FargateProfileLabel with
    | some v => decide (v.length > 0)
    | none => false

/-- The collection name `fmt.Sprintf("containers/%d/volumeMounts", envoyContainerIdx)`. -/
def volumeMountsOf (envoyContainerIdx : Nat) : String :=
  "containers/" ++ toString envoyContainerIdx ++ "/volumeMounts"

/-- The `for _, secretMount := range meta.Sidecar.SecretMounts` loop of `GeneratePatch`;
the loop variables are `mountsCreated`, `volumesCreated` and `patches`. -/
def secretMountsLoop (env : Env) (envoyContainerIdx : Nat) :
    List SecretMount → Bool → Bool → List Patch → Except GoError (List Patch)
  | [], _, _, patches => Except.ok patches
  | secretMount :: rest, mountsCreated, volumesCreated, patches =>
    match env.renderSecretVolumeMount secretMount with
    | Except.error err => Except.error err
    | Except.ok mountPatch =>
      let step1 : Patch × Bool :=
        if !mountsCreated then
          ( Patch.create (volumeMountsOf envoyContainerIdx) mountPatch, true)
        else
          ( Patch.add (volumeMountsOf envoyContainerIdx) mountPatch, mountsCreated)
      let patches := patches ++ [step1.1]
      match env.renderSecretVolume secretMount with
      | Except.error err => Except.error err
      | Except.ok volumePatch =>
        let step2 : Patch × Bool :=
          if !volumesCreated then ( Patch.create "volumes" volumePatch, true)
          else ( Patch.add "volumes" volumePatch, volumesCreated)
        let patches := patches ++ [step2.1]
        secretMountsLoop env envoyContainerIdx rest step1.2 step2.2 patches

/-- Lines 41 to 162 of `GeneratePatch`: the slice `patches` built by the function, or the
error of the first renderer that fails (where the source has `return emptyPatch, err`). -/
def GeneratePatchOps (env : Env) (m : Meta) : Except GoError (List Patch) := do
  let patches : List Patch := []
  let patches ←
    if isAppMeshCNIEnabled env.config m then
      pure (patches ++ appMeshCNIAnnotationsPatch env m)
    else do
      let initPatch ← env.renderInit m.Init
      let initPatch :=
        if m.AppendInit then Patch.add "initContainers" initPatch
        else Patch.create "initContainers" initPatch
      pure (patches ++ [initPatch])
  let patches :=
    if m.InjectFSGroup then patches ++ [podFSGroupPatch defaultFSGroup] else patches
  let sidecars ← env.renderSidecars m.Sidecar
  let sidecarPatches : List Patch :=
    if m.AppendSidecar then sidecars.map (fun sidecar => Patch.add "containers" sidecar)
    else [ Patch.create "containers" (",".intercalate sidecars)]
  let patches := patches ++ sidecarPatches
  let patches :=
    if m.HasImagePullSecret then
      let ecrPatch :=
        if m.AppendImagePullSecret then Patch.add "imagePullSecrets" ecrSecret
        else Patch.create "imagePullSecrets" ecrSecret
      patches ++ [ecrPatch]
    else patches
  let patches ←
    if m.Sidecar.EnableDatadogTracing then do
      let volumePatch := Patch.add "volumes" env.renderDatadogConfigVolume
      let patches := patches ++ [volumePatch]
      let datadogInit ←
        env.renderDatadogInitContainer m.Sidecar.DatadogAddress m.Sidecar.DatadogPort
      let j := Patch.add "initContainers" datadogInit
      pure (patches ++ [j])
    else pure patches
  let patches ←
    if m.Sidecar.EnableJaegerTracing then do
      let volumePatch := Patch.add "volumes" env.renderJaegerConfigVolume
      let patches := patches ++ [volumePatch]
      let jaegerInit ←
        env.renderJaegerInitContainer m.Sidecar.JaegerAddress m.Sidecar.JaegerPort
      let j := Patch.add "initContainers" jaegerInit
      pure (patches ++ [j])
    else pure patches
  let mountsCreated := m.Sidecar.EnableDatadogTracing || m.Sidecar.EnableJaegerTracing
  let volumesCreated := decide (m.PodSpec.Volumes.length > 0)
  let volumesCreated :=
    match !volumesCreated, m.PodSpec.AutomountServiceAccountToken with
    | true, some automount => automount
    | _, _ => volumesCreated
  let envoyContainerIdx := if m.AppendSidecar then 1 else 0
  secretMountsLoop env envoyContainerIdx m.Sidecar.SecretMounts mountsCreated volumesCreated
    patches

/-- Source: `emptyPatch`, the nil byte slice. -/
def emptyPatch : String := ""

/-- The return statement of line 166: `[` + the patches joined by `,` + `]`. -/
def encodePatches (patches : List Patch) : String :=
  "[" ++ ",".intercalate (patches.map Patch.render) ++ "]"

/-- Source: `GeneratePatch`, returning the pair `([]byte, error)`.  The call
`fmt.Println(patches)` writes to standard output and does not affect the result. -/
def GeneratePatch (env : Env) (m : Meta) : String × Option GoError :=
  match GeneratePatchOps env m with
  | Except.error err => (emptyPatch, some err)
  | Except.ok patches => (encodePatches patches, none)

/-! ## A sample configuration -/

/-- Sample values for the constants of package `config`. -/
def sampleConfig : Config where
  AppMeshCNIAnnotation := "appmesh.k8s.aws/appmeshCNI"
  FargateProfileLabel := "eks.amazonaws.com/fargate-profile"
  AppMeshEgressIgnoredIPsAnnotation := "appmesh.k8s.aws/egressIgnoredIPs"
  AppMeshEgressIgnoredPortsAnnotation := "appmesh.k8s.aws/egressIgnoredPorts"
  AppMeshPortsAnnotation := "appmesh.k8s.aws/ports"
  AppMeshSidecarInjectAnnotation := "appmesh.k8s.aws/sidecarInjectorWebhook"
  AppMeshIgnoredUIDAnnotation := "appmesh.k8s.aws/ignoredUID"
  AppMeshProxyEgressPortAnnotation := "appmesh.k8s.aws/proxyEgressPort"
  AppMeshProxyIngressPortAnnotation := "appmesh.k8s.aws/proxyIngressPort"
  AppMeshProxyUID := "1337"
  AppMeshProxyEgressPort := "15001"
  AppMeshProxyIngressPort := "15000"

/-- Sample renderers: each returns a small JSON object; `renderInit` fails on an empty
port list and the secret renderers fail on an empty secret name.  Maps are visited in
stored order. -/
def sampleEnv : Env where
  config := sampleConfig
  renderInit := fun i =>
    if i.Ports = "" then Except.error "init: no ports"
    else Except.ok ("\x7b\"name\":\"proxyinit\",\"ports\":\"" ++ i.Ports ++ "\"\x7d")
  renderSidecars := fun _ => Except.ok ["\x7b\"name\":\"envoy\"\x7d"]
  renderDatadogConfigVolume := "\x7b\"name\":\"config\"\x7d"
  renderDatadogInitContainer := fun a p =>
    Except.ok ("\x7b\"name\":\"dd\",\"to\":\"" ++ a ++ ":" ++ p ++ "\"\x7d")
  renderJaegerConfigVolume := "\x7b\"name\":\"envoy-tracing-config\"\x7d"
  renderJaegerInitContainer := fun a p =>
    Except.ok ("\x7b\"name\":\"jaeger\",\"to\":\"" ++ a ++ ":" ++ p ++ "\"\x7d")
  renderSecretVolumeMount := fun sm =>
    if sm.SecretName = "" then Except.error "secret mount: no name"
    else Except.ok ("\x7b\"name\":\"" ++ sm.SecretName ++ "\",\"mountPath\":\""
      ++ sm.MountPath ++ "\"\x7d")
  renderSecretVolume := fun sm =>
    if sm.SecretName = "" then Except.error "secret volume: no name"
    else Except.ok ("\x7b\"name\":\"" ++ sm.SecretName ++ "\"\x7d")
  rangeOrder := fun entries => entries

/-- A pod without annotations, labels or volumes, to be injected with one sidecar. -/
def sampleMeta : Meta where
  AppendInit := false
  AppendSidecar := true
  AppendImagePullSecret := false
  HasImagePullSecret := false
  InjectFSGroup := true
  Init := ⟨"8080", "22", "169.254.169.254"⟩
  Sidecar := ⟨false, "datadog.svc", "8126", false, "jaeger.svc", "9411", []⟩
  PodMetadata := ⟨none, none⟩
  PodSpec := ⟨[], none⟩

/-! ## The output of `GeneratePatch`, segment by segment

The definitions below name the consecutive segments of `patches`;
`GeneratePatchOps_eq_stages` proves that `GeneratePatchOps` is their concatenation. -/

/-- Lines 44 to 58: the annotation operations in mesh-CNI mode, else the init-container
operation. -/
def modeStage (env : Env) (m : Meta) : Except GoError (List Patch) :=
  if isAppMeshCNIEnabled env.config m then Except.ok (appMeshCNIAnnotationsPatch env m)
  else
    match env.renderInit m.Init with
    | Except.error err => Except.error err
    | Except.ok initPatch =>
      Except.ok [if m.AppendInit then Patch.add "initContainers" initPatch
        else Patch.create "initContainers" initPatch]

/-- Lines 60 to 62: the fsGroup operation. -/
def fsGroupOps (m : Meta) : List Patch :=
  if m.InjectFSGroup then [podFSGroupPatch defaultFSGroup] else []

/-- Lines 70 to 78: `sidecarPatches`, from the rendered sidecars. -/
def sidecarOps (m : Meta) (sidecars : List String) : List Patch :=
  if m.AppendSidecar then sidecars.map (fun sidecar => Patch.add "containers" sidecar)
  else [ Patch.create "containers" (",".intercalate sidecars)]

/-- Lines 81 to 89: the image-pull-secret operation. -/
def ecrOps (m : Meta) : List Patch :=
  if m.HasImagePullSecret then
    [if m.AppendImagePullSecret then Patch.add "imagePullSecrets" ecrSecret
      else Patch.create "imagePullSecrets" ecrSecret]
  else []

/-- Lines 91 to 104: the Datadog volume and init container. -/
def datadogStage (env : Env) (m : Meta) : Except GoError (List Patch) :=
  if m.Sidecar.EnableDatadogTracing then
    match env.renderDatadogInitContainer m.Sidecar.DatadogAddress m.Sidecar.DatadogPort with
    | Except.error err => Except.error err
    | Except.ok datadogInit =>
      Except.ok [ Patch.add "volumes" env.renderDatadogConfigVolume,
        Patch.add "initContainers" datadogInit]
  else Except.ok []

/-- Lines 106 to 119: the Jaeger volume and init container. -/
def jaegerStage (env : Env) (m : Meta) : Except GoError (List Patch) :=
  if m.Sidecar.EnableJaegerTracing then
    match env.renderJaegerInitContainer m.Sidecar.JaegerAddress m.Sidecar.JaegerPort with
    | Except.error err => Except.error err
    | Except.ok jaegerInit =>
      Except.ok [ Patch.add "volumes" env.renderJaegerConfigVolume,
        Patch.add "initContainers" jaegerInit]
  else Except.ok []

/-- Lines 122 to 125: the initial value of `volumesCreated`. -/
def volumesPreexist (m : Meta) : Bool :=
  decide (m.PodSpec.Volumes.length > 0) || m.PodSpec.AutomountServiceAccountToken == some true

/-- Lines 127 to 130: `envoyContainerIdx`. -/
def envoyContainerIdxOf (m : Meta) : Nat := if m.AppendSidecar then 1 else 0

/-- Lines 131 to 162: the operations of the secret mounts. -/
def secretStage (env : Env) (m : Meta) : Except GoError (List Patch) :=
  secretMountsLoop env (envoyContainerIdxOf m) m.Sidecar.SecretMounts
    (m.Sidecar.EnableDatadogTracing || m.Sidecar.EnableJaegerTracing) (volumesPreexist m) []

/-- The concatenation of the segments, stopping at the first renderer that fails. -/
def stagedOps (env : Env) (m : Meta) : Except GoError (List Patch) :=
  match modeStage env m with
  | Except.error err => Except.error err
  | Except.ok modePatches =>
    match env.renderSidecars m.Sidecar with
    | Except.error err => Except.error err
    | Except.ok sidecars =>
      match datadogStage env m with
      | Except.error err => Except.error err
      | Except.ok datadogPatches =>
        match jaegerStage env m with
        | Except.error err => Except.error err
        | Except.ok jaegerPatches =>
          match secretStage env m with
          | Except.error err => Except.error err
          | Except.ok secretPatches =>
            Except.ok (modePatches ++ fsGroupOps m ++ sidecarOps m sidecars ++ ecrOps m
              ++ datadogPatches ++ jaegerPatches ++ secretPatches)

/-- The scenario of the specification: `sampleMeta` with two secret mounts. -/
def scenarioMeta : Meta :=
  { sampleMeta with
    Sidecar := { sampleMeta.Sidecar with
      SecretMounts := [⟨"certs", "/certs"⟩, ⟨"keys", "/keys"⟩] } }

/-- A pod that carries the mesh-CNI annotation with value `enabled`. -/
def cniMeta : Meta :=
  { sampleMeta with
    PodMetadata := ⟨some [("appmesh.k8s.aws/appmeshCNI", "enabled")], none⟩ }

/-- A pod to which the init container is appended. -/
def appendInitMeta : Meta :=
  { sampleMeta with AppendInit := true }

/-- A pod in mesh-CNI mode with Datadog tracing enabled. -/
def cniDatadogMeta : Meta :=
  { cniMeta with
    Sidecar := { cniMeta.Sidecar with EnableDatadogTracing := true } }

/-- Some renderer that `GeneratePatch` calls for this `Meta` returns an error:
`renderInit` in sidecar-injection mode, `renderSidecars`, the init-container renderer of an
enabled tracing backend, or one of the two renderers of some secret mount. -/
def rendererFails (env : Env) (m : Meta) : Bool :=
  (!isAppMeshCNIEnabled env.config m && !(env.renderInit m.Init).toBool)
  || !(env.renderSidecars m.Sidecar).toBool
  || (m.Sidecar.EnableDatadogTracing
      && !(env.renderDatadogInitContainer m.Sidecar.DatadogAddress m.Sidecar.DatadogPort).toBool)
  || (m.Sidecar.EnableJaegerTracing
      && !(env.renderJaegerInitContainer m.Sidecar.JaegerAddress m.Sidecar.JaegerPort).toBool)
  || m.Sidecar.SecretMounts.any (fun secretMount =>
      !(env.renderSecretVolumeMount secretMount).toBool
        || !(env.renderSecretVolume secretMount).toBool)

/-- A pod with both tracing backends enabled and one secret mount. -/
def tracingMeta : Meta :=
  { sampleMeta with
    Sidecar := { sampleMeta.Sidecar with
      EnableDatadogTracing := true
      EnableJaegerTracing := true
      SecretMounts := [⟨"certs", "/certs"⟩] } }

/-- A pod whose second secret mount has no name, so that its renderers fail. -/
def failingMeta : Meta :=
  { sampleMeta with
    Sidecar := { sampleMeta.Sidecar with
      SecretMounts := [⟨"certs", "/certs"⟩, ⟨"", "/keys"⟩] } }

/-- A pod with Datadog tracing enabled that has no volumes and does not mount the
service-account token, with one secret mount. -/
def datadogNoVolumesMeta : Meta :=
  { sampleMeta with
    Sidecar := { sampleMeta.Sidecar with
      EnableDatadogTracing := true
      SecretMounts := [⟨"certs", "/certs"⟩] }
    PodSpec := ⟨[], some false⟩ }

/-- A pod whose mesh-CNI annotation is `disabled` and that carries a Fargate-profile label. -/
def fargateOptOutMeta : Meta :=
  { sampleMeta with
    PodMetadata := ⟨some [("appmesh.k8s.aws/appmeshCNI", "disabled")],
      some [("eks.amazonaws.com/fargate-profile", "fp-default")]⟩ }

/-- A pod without the mesh-CNI annotation that carries a Fargate-profile label. -/
def fargateMeta : Meta :=
  { sampleMeta with
    PodMetadata := ⟨none, some [("eks.amazonaws.com/fargate-profile", "fp-default")]⟩ }

/-- The number of reference tokens of a JSON Pointer (RFC 6901): each token is introduced
by one `/`. -/
def referenceTokenCount (pointer : String) : Nat := pointer.data.count '/'

/-- A pod whose sidecars are written as the whole containers array. -/
def createSidecarMeta : Meta :=
  { sampleMeta with AppendSidecar := false }

/-- The operations of secret mounts once both collections exist: for each mount, given as
its rendered volumeMount and volume, an append of the volumeMount and then an append of the
volume. -/
def secretAppends (envoyContainerIdx : Nat) (rendered : List (String × String)) : List Patch :=
  rendered.flatMap (fun r =>
    [ Patch.add (volumeMountsOf envoyContainerIdx) r.1, Patch.add "volumes" r.2])

/-- A pod that already has a volume, with two secret mounts and Jaeger tracing. -/
def volumesMeta : Meta :=
  { sampleMeta with
    Sidecar := { sampleMeta.Sidecar with
      EnableJaegerTracing := true
      SecretMounts := [⟨"certs", "/certs"⟩, ⟨"keys", "/keys"⟩] }
    PodSpec := ⟨[⟨"data"⟩], none⟩ }

/-- The operation is built with template `create` for the collection `coll`: an `add`
at path `/spec/<coll>` whose value is an array. -/
def isCreateOf (coll : String) : Patch → Bool
  | Patch.create c _ => coll == c
  | _ => false

/-! # Theorems -/

/-! ## Strings: replacement of one-character patterns -/

theorem replaceAllLoop_single (a : Char) (new s : List Char) :
    replaceAllLoop [a] new 0 s = s.flatMap (fun c => if c = a then new else [c]) := by
  induction s with
  | nil => rfl
  | cons c t ih =>
    by_cases h : c = a
    · subst h
      simp [replaceAllLoop, List.isPrefixOf, ih]
    · have h2 : ¬ a = c := fun e => h e.symm
      simp [replaceAllLoop, List.isPrefixOf, ih, h, h2]

theorem escapeJSONPointer_data (key : String) :
    (escapeJSONPointer key).data = key.data.flatMap escapeChar := by
  show (replaceAll (replaceAll key "~" "~0") "/" "~1").data = _
  have h1 : ∀ s : String, (replaceAll s "~" "~0").data
      = s.data.flatMap (fun c => if c = '~' then ['~', '0'] else [c]) := by
    intro s
    show replaceAllLoop ['~'] ['~', '0'] 0 s.data = _
    exact replaceAllLoop_single _ _ _
  have h2 : ∀ s : String, (replaceAll s "/" "~1").data
      = s.data.flatMap (fun c => if c = '/' then ['~', '1'] else [c]) := by
    intro s
    show replaceAllLoop ['/'] ['~', '1'] 0 s.data = _
    exact replaceAllLoop_single _ _ _
  rw [h2, h1, List.flatMap_assoc]
  congr 1
  funext c
  unfold escapeChar
  by_cases hc : c = '~'
  · subst hc; simp
  · by_cases hd : c = '/'
    · subst hd; simp
    · simp [hc, hd]


theorem decodeSlash_flatMap (k : List Char) :
    replaceAllLoop ['~', '1'] ['/'] 0 (k.flatMap escapeChar) = k.flatMap tildeChar := by
  induction k with
  | nil => rfl
  | cons c t ih =>
    by_cases hc : c = '~'
    · subst hc
      simp [escapeChar, tildeChar, replaceAllLoop, List.isPrefixOf] at ih ⊢
      exact ih
    · by_cases hd : c = '/'
      · subst hd
        simp [escapeChar, tildeChar, replaceAllLoop, List.isPrefixOf] at ih ⊢
        exact ih
      · have hc2 : ¬ '~' = c := fun e => hc e.symm
        simp [escapeChar, tildeChar, replaceAllLoop, List.isPrefixOf, hc, hd, hc2] at ih ⊢
        exact ih

theorem decodeTilde_flatMap (k : List Char) :
    replaceAllLoop ['~', '0'] ['~'] 0 (k.flatMap tildeChar) = k := by
  induction k with
  | nil => rfl
  | cons c t ih =>
    by_cases hc : c = '~'
    · subst hc
      simp [tildeChar, replaceAllLoop, List.isPrefixOf] at ih ⊢
      exact ih
    · have hc2 : ¬ '~' = c := fun e => hc e.symm
      simp [tildeChar, replaceAllLoop, List.isPrefixOf, hc, hc2] at ih ⊢
      exact ih

theorem unescape_escape (key : String) :
    unescapeJSONPointer (escapeJSONPointer key) = key := by
  have h1 : (replaceAll (escapeJSONPointer key) "~1" "/").data = key.data.flatMap tildeChar := by
    show replaceAllLoop ['~', '1'] ['/'] 0 (escapeJSONPointer key).data = _
    rw [escapeJSONPointer_data]
    exact decodeSlash_flatMap _
  have h2 : (unescapeJSONPointer (escapeJSONPointer key)).data = key.data := by
    show replaceAllLoop ['~', '0'] ['~'] 0 (replaceAll (escapeJSONPointer key) "~1" "/").data = _
    rw [h1]
    exact decodeTilde_flatMap _
  exact String.ext h2

/-- C4. `escapeJSONPointer` is the two replacements of the source, `~` first; its
result is the key with every `~` replaced by `~0` and every `/` by `~1`; the reverse
substitution (`~1` to `/`, then `~0` to `~`) gives the key back; so the function is
injective. -/
theorem escapeJSONPointer_roundtrip (key : String) :
    escapeJSONPointer key = replaceAll (replaceAll key "~" "~0") "/" "~1"
    ∧ (escapeJSONPointer key).data = key.data.flatMap escapeChar
    ∧ unescapeJSONPointer (escapeJSONPointer key) = key
    ∧ Function.Injective escapeJSONPointer := by
  refine ⟨rfl, escapeJSONPointer_data key, unescape_escape key, ?_⟩
  intro a b hab
  have := congrArg unescapeJSONPointer hab
  rwa [unescape_escape, unescape_escape] at this

/-! ## `GeneratePatch` as a concatenation of segments -/

theorem secretMountsLoop_acc (env : Env) (idx : Nat) (mounts : List SecretMount) :
    ∀ (mc vc : Bool) (acc : List Patch),
      secretMountsLoop env idx mounts mc vc acc
        = (secretMountsLoop env idx mounts mc vc []).map (fun ps => acc ++ ps) := by
  induction mounts with
  | nil => intro mc vc acc; simp [secretMountsLoop, Except.map]
  | cons sm rest ih =>
    intro mc vc acc
    simp only [secretMountsLoop]
    cases h1 : env.renderSecretVolumeMount sm with
    | error e => simp [Except.map]
    | ok mountPatch =>
      cases h2 : env.renderSecretVolume sm with
      | error e => simp [Except.map]
      | ok volumePatch =>
        simp only []
        rw [ih _ _ (acc ++ _ ++ _), ih _ _ ([] ++ _ ++ _)]
        cases secretMountsLoop env idx rest
          (if (!mc) = true then ( Patch.create (volumeMountsOf idx) mountPatch, true)
            else ( Patch.add (volumeMountsOf idx) mountPatch, mc)).2
          (if (!vc) = true then ( Patch.create "volumes" volumePatch, true)
            else ( Patch.add "volumes" volumePatch, vc)).2 [] with
        | error e => simp [Except.map]
        | ok ps => simp [Except.map]

theorem volumesCreated_eq (m : Meta) :
    (match !decide (m.PodSpec.Volumes.length > 0), m.PodSpec.AutomountServiceAccountToken with
      | true, some automount => automount
      | _, _ => decide (m.PodSpec.Volumes.length > 0)) = volumesPreexist m := by
  unfold volumesPreexist
  cases decide (m.PodSpec.Volumes.length > 0) <;>
    cases m.PodSpec.AutomountServiceAccountToken with
    | none => simp
    | some b => cases b <;> simp

theorem GeneratePatchOps_eq_stages (env : Env) (m : Meta) :
    GeneratePatchOps env m = stagedOps env m := by
  unfold GeneratePatchOps stagedOps modeStage datadogStage jaegerStage secretStage
  simp only [bind, Except.bind, pure, Except.pure, List.nil_append, volumesCreated_eq]
  cases hc : isAppMeshCNIEnabled env.config m <;>
  cases hi : env.renderInit m.Init <;>
  cases hs : env.renderSidecars m.Sidecar <;>
  cases hdd : m.Sidecar.EnableDatadogTracing <;>
  cases hd : env.renderDatadogInitContainer m.Sidecar.DatadogAddress m.Sidecar.DatadogPort <;>
  cases hjj : m.Sidecar.EnableJaegerTracing <;>
  cases hj : env.renderJaegerInitContainer m.Sidecar.JaegerAddress m.Sidecar.JaegerPort <;>
  simp only [if_true, if_false, Bool.false_eq_true, envoyContainerIdxOf] <;>
  first
  | rfl
  | (rw [secretMountsLoop_acc]
     generalize secretMountsLoop env (if m.AppendSidecar = true then 1 else 0)
       m.Sidecar.SecretMounts _ _ [] = r
     cases r <;> cases hf : m.InjectFSGroup <;> cases hp : m.HasImagePullSecret <;>
       simp [Except.map, fsGroupOps, sidecarOps, ecrOps, hf, hp])

theorem GeneratePatchOps_ok_iff (env : Env) (m : Meta) (ops : List Patch) :
    GeneratePatchOps env m = Except.ok ops ↔
      ∃ a sc d j s, modeStage env m = Except.ok a ∧ env.renderSidecars m.Sidecar = Except.ok sc
        ∧ datadogStage env m = Except.ok d ∧ jaegerStage env m = Except.ok j
        ∧ secretStage env m = Except.ok s
        ∧ ops = a ++ fsGroupOps m ++ sidecarOps m sc ++ ecrOps m ++ d ++ j ++ s := by
  rw [GeneratePatchOps_eq_stages]
  unfold stagedOps
  cases modeStage env m <;> cases env.renderSidecars m.Sidecar <;>
    cases datadogStage env m <;> cases jaegerStage env m <;> cases secretStage env m <;>
    simp [eq_comm]

/-! ## The secret-mount loop -/

theorem secretMountsLoop_cons_ok (env : Env) (idx : Nat) (sm : SecretMount)
    (rest : List SecretMount) (mc vc : Bool) (ops : List Patch) :
    secretMountsLoop env idx (sm :: rest) mc vc [] = Except.ok ops ↔
      ∃ vm v tail, env.renderSecretVolumeMount sm = Except.ok vm
        ∧ env.renderSecretVolume sm = Except.ok v
        ∧ secretMountsLoop env idx rest true true [] = Except.ok tail
        ∧ ops = (if mc then Patch.add (volumeMountsOf idx) vm
                  else Patch.create (volumeMountsOf idx) vm)
              :: (if vc then Patch.add "volumes" v else Patch.create "volumes" v) :: tail := by
  simp only [secretMountsLoop]
  cases h1 : env.renderSecretVolumeMount sm with
  | error e => simp
  | ok vm =>
    cases h2 : env.renderSecretVolume sm with
    | error e => simp
    | ok v =>
      simp only []
      rw [secretMountsLoop_acc]
      have hmc : (if (!mc) = true then ( Patch.create (volumeMountsOf idx) vm, true)
          else ( Patch.add (volumeMountsOf idx) vm, mc)).2 = true := by cases mc <;> rfl
      have hvc : (if (!vc) = true then ( Patch.create "volumes" v, true)
          else ( Patch.add "volumes" v, vc)).2 = true := by cases vc <;> rfl
      rw [hmc, hvc]
      cases secretMountsLoop env idx rest true true [] with
      | error e => simp [Except.map]
      | ok tail => cases mc <;> cases vc <;> simp [Except.map, eq_comm]

theorem secretMountsLoop_mem (env : Env) (idx : Nat) (mounts : List SecretMount) :
    ∀ (mc vc : Bool) (ops : List Patch),
      secretMountsLoop env idx mounts mc vc [] = Except.ok ops →
      ∀ p ∈ ops, ∃ v, p = Patch.create (volumeMountsOf idx) v ∨ p = Patch.add (volumeMountsOf idx) v
        ∨ p = Patch.create "volumes" v ∨ p = Patch.add "volumes" v := by
  induction mounts with
  | nil =>
    intro mc vc ops h p hp
    simp [secretMountsLoop] at h
    subst h
    simp at hp
  | cons sm rest ih =>
    intro mc vc ops h p hp
    rw [secretMountsLoop_cons_ok] at h
    obtain ⟨vm, v, tail, -, -, htail, rfl⟩ := h
    simp only [List.mem_cons] at hp
    rcases hp with hp | hp | hp
    · refine ⟨vm, ?_⟩
      cases mc <;> simp [hp]
    · refine ⟨v, ?_⟩
      cases vc <;> simp [hp]
    · exact ih true true tail htail p hp

/-! ## The annotation loop -/

theorem annotationsLoop_some (existing : GoMap) (entries : List (String × String)) :
    ∀ acc : List Patch, annotationsLoop entries (some existing) acc
      = acc ++ entries.map (fun kv =>
          Patch.updateAnnotation (if mapIndex (some existing) kv.1 ≠ "" then "replace" else "add")
            (escapeJSONPointer kv.1) kv.2) := by
  induction entries with
  | nil => intro acc; simp [annotationsLoop]
  | cons kv rest ih =>
    intro acc
    obtain ⟨k, v⟩ := kv
    simp [annotationsLoop, ih]

theorem annotationsPatches_some (existing : GoMap) (entries : List (String × String)) :
    annotationsPatches (some existing) entries
      = entries.map (fun kv =>
          Patch.updateAnnotation (if mapIndex (some existing) kv.1 ≠ "" then "replace" else "add")
            (escapeJSONPointer kv.1) kv.2) := by
  simp [annotationsPatches, annotationsLoop_some]

theorem annotationsLoop_mem (entries : List (String × String)) :
    ∀ (existing : Option GoMap) (acc : List Patch) (p : Patch),
      p ∈ annotationsLoop entries existing acc →
      p ∈ acc ∨ (∃ k v, p = Patch.createAnnotation k v)
        ∨ (∃ o k v, p = Patch.updateAnnotation o (escapeJSONPointer k) v) := by
  induction entries with
  | nil => intro existing acc p hp; left; simpa [annotationsLoop] using hp
  | cons kv rest ih =>
    intro existing acc p hp
    obtain ⟨k, v⟩ := kv
    cases existing with
    | none =>
      simp only [annotationsLoop] at hp
      rcases ih _ _ p hp with h | h | h
      · simp only [List.mem_append, List.mem_singleton] at h
        rcases h with h | h
        · exact Or.inl h
        · exact Or.inr (Or.inl ⟨k, v, h⟩)
      · exact Or.inr (Or.inl h)
      · exact Or.inr (Or.inr h)
    | some ex =>
      simp only [annotationsLoop] at hp
      rcases ih _ _ p hp with h | h | h
      · simp only [List.mem_append, List.mem_singleton] at h
        rcases h with h | h
        · exact Or.inl h
        · exact Or.inr (Or.inr ⟨_, k, v, h⟩)
      · exact Or.inr (Or.inl h)
      · exact Or.inr (Or.inr h)

/-- Every operation emitted after the mode decision has one of the shapes the later
branches of `GeneratePatch` produce. -/
theorem laterOps_mem (env : Env) (m : Meta) (sc : List String) (d j s : List Patch)
    (p : Patch) (hd : datadogStage env m = Except.ok d) (hj : jaegerStage env m = Except.ok j)
    (hs : secretStage env m = Except.ok s)
    (hp : p ∈ fsGroupOps m ++ sidecarOps m sc ++ ecrOps m ++ d ++ j ++ s) :
    (m.InjectFSGroup = true ∧ p = Patch.createElement "securityContext/fsGroup" "1337")
    ∨ (∃ v, p = (if m.AppendSidecar then Patch.add "containers" v
                  else Patch.create "containers" v))
    ∨ (m.HasImagePullSecret = true
        ∧ p = (if m.AppendImagePullSecret then Patch.add "imagePullSecrets" ecrSecret
                else Patch.create "imagePullSecrets" ecrSecret))
    ∨ (m.Sidecar.EnableDatadogTracing = true
        ∧ (p = Patch.add "volumes" env.renderDatadogConfigVolume
          ∨ ∃ v, env.renderDatadogInitContainer m.Sidecar.DatadogAddress
              m.Sidecar.DatadogPort = Except.ok v ∧ p = Patch.add "initContainers" v))
    ∨ (m.Sidecar.EnableJaegerTracing = true
        ∧ (p = Patch.add "volumes" env.renderJaegerConfigVolume
          ∨ ∃ v, env.renderJaegerInitContainer m.Sidecar.JaegerAddress
              m.Sidecar.JaegerPort = Except.ok v ∧ p = Patch.add "initContainers" v))
    ∨ (∃ v, p = Patch.create (volumeMountsOf (envoyContainerIdxOf m)) v
          ∨ p = Patch.add (volumeMountsOf (envoyContainerIdxOf m)) v
          ∨ p = Patch.create "volumes" v ∨ p = Patch.add "volumes" v) := by
  simp only [List.mem_append] at hp
  rcases hp with ((((hp | hp) | hp) | hp) | hp) | hp
  · left
    unfold fsGroupOps at hp
    cases hf : m.InjectFSGroup with
    | false => simp [hf] at hp
    | true =>
      simp only [hf, if_true, List.mem_singleton] at hp
      exact ⟨rfl, by rw [hp]; decide⟩
  · right; left
    unfold sidecarOps at hp
    cases hsc : m.AppendSidecar with
    | false =>
      simp only [hsc, Bool.false_eq_true, if_false, List.mem_singleton] at hp
      exact ⟨_, by simpa using hp⟩
    | true =>
      simp only [hsc, if_true, List.mem_map] at hp
      obtain ⟨v, -, rfl⟩ := hp
      exact ⟨v, by simp⟩
  · right; right; left
    unfold ecrOps at hp
    cases hps : m.HasImagePullSecret with
    | false => simp [hps] at hp
    | true =>
      simp only [hps, if_true, List.mem_singleton] at hp
      exact ⟨rfl, hp⟩
  · right; right; right; left
    unfold datadogStage at hd
    cases hdd : m.Sidecar.EnableDatadogTracing with
    | false =>
      simp only [hdd, Bool.false_eq_true, if_false, Except.ok.injEq] at hd
      subst hd
      simp at hp
    | true =>
      simp only [hdd, if_true] at hd
      cases hr : env.renderDatadogInitContainer m.Sidecar.DatadogAddress
          m.Sidecar.DatadogPort with
      | error e => simp [hr] at hd
      | ok v =>
        simp only [hr, Except.ok.injEq] at hd
        subst hd
        simp only [List.mem_cons, List.mem_singleton, List.not_mem_nil, or_false] at hp
        rcases hp with hp | hp
        · exact ⟨rfl, Or.inl hp⟩
        · exact ⟨rfl, Or.inr ⟨v, rfl, hp⟩⟩
  · right; right; right; right; left
    unfold jaegerStage at hj
    cases hjj : m.Sidecar.EnableJaegerTracing with
    | false =>
      simp only [hjj, Bool.false_eq_true, if_false, Except.ok.injEq] at hj
      subst hj
      simp at hp
    | true =>
      simp only [hjj, if_true] at hj
      cases hr : env.renderJaegerInitContainer m.Sidecar.JaegerAddress
          m.Sidecar.JaegerPort with
      | error e => simp [hr] at hj
      | ok v =>
        simp only [hr, Except.ok.injEq] at hj
        subst hj
        simp only [List.mem_cons, List.mem_singleton, List.not_mem_nil, or_false] at hp
        rcases hp with hp | hp
        · exact ⟨rfl, Or.inl hp⟩
        · exact ⟨rfl, Or.inr ⟨v, rfl, hp⟩⟩
  · right; right; right; right; right
    exact secretMountsLoop_mem env _ _ _ _ s hs p hp

/-- Every operation `GeneratePatch` emits has one of the shapes its branches produce. -/
theorem GeneratePatchOps_mem (env : Env) (m : Meta) (ops : List Patch) (p : Patch)
    (h : GeneratePatchOps env m = Except.ok ops) (hp : p ∈ ops) :
    (isAppMeshCNIEnabled env.config m = true
        ∧ ((∃ k v, p = Patch.createAnnotation k v)
          ∨ (∃ o k v, p = Patch.updateAnnotation o (escapeJSONPointer k) v)))
    ∨ (isAppMeshCNIEnabled env.config m = false
        ∧ ∃ v, p = (if m.AppendInit then Patch.add "initContainers" v
                    else Patch.create "initContainers" v))
    ∨ (m.InjectFSGroup = true ∧ p = Patch.createElement "securityContext/fsGroup" "1337")
    ∨ (∃ v, p = (if m.AppendSidecar then Patch.add "containers" v
                  else Patch.create "containers" v))
    ∨ (m.HasImagePullSecret = true
        ∧ p = (if m.AppendImagePullSecret then Patch.add "imagePullSecrets" ecrSecret
                else Patch.create "imagePullSecrets" ecrSecret))
    ∨ (m.Sidecar.EnableDatadogTracing = true
        ∧ (p = Patch.add "volumes" env.renderDatadogConfigVolume
          ∨ ∃ v, env.renderDatadogInitContainer m.Sidecar.DatadogAddress
              m.Sidecar.DatadogPort = Except.ok v ∧ p = Patch.add "initContainers" v))
    ∨ (m.Sidecar.EnableJaegerTracing = true
        ∧ (p = Patch.add "volumes" env.renderJaegerConfigVolume
          ∨ ∃ v, env.renderJaegerInitContainer m.Sidecar.JaegerAddress
              m.Sidecar.JaegerPort = Except.ok v ∧ p = Patch.add "initContainers" v))
    ∨ (∃ v, p = Patch.create (volumeMountsOf (envoyContainerIdxOf m)) v
          ∨ p = Patch.add (volumeMountsOf (envoyContainerIdxOf m)) v
          ∨ p = Patch.create "volumes" v ∨ p = Patch.add "volumes" v) := by
  rw [GeneratePatchOps_ok_iff] at h
  obtain ⟨a, sc, d, j, s, ha, -, hd, hj, hs, rfl⟩ := h
  simp only [List.append_assoc, List.mem_append] at hp
  rcases hp with hp | hp
  · unfold modeStage at ha
    cases hc : isAppMeshCNIEnabled env.config m with
    | true =>
      left
      simp only [hc, if_true, Except.ok.injEq] at ha
      subst ha
      rcases annotationsLoop_mem _ _ _ p hp with h | h | h
      · simp at h
      · exact ⟨rfl, Or.inl h⟩
      · exact ⟨rfl, Or.inr h⟩
    | false =>
      right; left
      simp only [hc, Bool.false_eq_true, if_false] at ha
      cases hi : env.renderInit m.Init with
      | error e => simp [hi] at ha
      | ok v =>
        simp only [hi, Except.ok.injEq] at ha
        subst ha
        exact ⟨rfl, v, by simpa using hp⟩
  · right; right
    apply laterOps_mem env m sc d j s p hd hj hs
    simp only [List.append_assoc, List.mem_append]
    exact hp

/-! ## Paths -/

theorem hasPrefix_self (s : String) : hasPrefix s s = true := by
  simp [hasPrefix]

theorem annotationPath_not_spec (k t : String) :
    hasPrefix ("/metadata/annotations" ++ k) ("/spec/" ++ t) = false := by
  simp [hasPrefix, String.data_append, List.isPrefixOf]

theorem specPath_not_annotation (k t : String) :
    hasPrefix ("/spec/" ++ t) ("/metadata/annotations" ++ k) = false := by
  simp [hasPrefix, String.data_append, List.isPrefixOf]

theorem ne_of_hasPrefix_false (s t : String) (h : hasPrefix s t = false) : s ≠ t := by
  intro e
  subst e
  rw [hasPrefix_self] at h
  exact Bool.noConfusion h

theorem updatePath_ne (k t : String) (ht : hasPrefix t "/s" = true) :
    "/metadata/annotations/" ++ k ≠ t := by
  intro e
  subst e
  simp [hasPrefix, String.data_append, List.isPrefixOf] at ht

theorem volumeMountsOf_idx (m : Meta) :
    volumeMountsOf (envoyContainerIdxOf m)
      = if m.AppendSidecar then "containers/1/volumeMounts" else "containers/0/volumeMounts" := by
  unfold envoyContainerIdxOf
  cases m.AppendSidecar <;> rfl

theorem isAppMeshCNIEnabled_of_annotation (cfg : Config) (m : Meta)
    (hcni : mapGet m.PodMetadata.Annotations cfg.AppMeshCNIAnnotation = some "enabled") :
    isAppMeshCNIEnabled cfg m = true := by
  simp [isAppMeshCNIEnabled, hcni]

/-! ## Map literals -/

theorem mapInsert_of_not_mem (m : GoMap) (key value : String)
    (h : key ∉ m.map Prod.fst) : mapInsert m key value = m ++ [(key, value)] := by
  induction m with
  | nil => rfl
  | cons kv rest ih =>
    obtain ⟨k, v⟩ := kv
    simp only [List.map_cons, List.mem_cons, not_or] at h
    have hk : ¬ k = key := fun e => h.1 e.symm
    simp [mapInsert, hk, ih h.2]

theorem mapLiteral_foldl (entries : List (String × String)) :
    ∀ acc : GoMap, ((acc ++ entries).map Prod.fst).Nodup →
      entries.foldl (fun m kv => mapInsert m kv.1 kv.2) acc = acc ++ entries := by
  induction entries with
  | nil => intro acc _; simp
  | cons kv rest ih =>
    intro acc hnd
    have hnot : kv.1 ∉ acc.map Prod.fst := by
      simp only [List.map_append, List.map_cons] at hnd
      rw [List.nodup_append] at hnd
      intro hmem
      exact hnd.2.2 hmem (List.mem_cons_self _ _)
    simp only [List.foldl_cons]
    rw [mapInsert_of_not_mem acc kv.1 kv.2 hnot, ih]
    · simp
    · simpa using hnd

theorem mapLiteral_of_nodup (entries : List (String × String))
    (h : (entries.map Prod.fst).Nodup) : mapLiteral entries = entries := by
  unfold mapLiteral
  rw [mapLiteral_foldl entries [] (by simpa using h)]
  simp

theorem hasPrefix_append (s t : String) : hasPrefix (s ++ t) s = true := by
  simp [hasPrefix, String.data_append]

theorem laterOps_not_annotation (env : Env) (m : Meta) (sc : List String)
    (d j s : List Patch) (p : Patch) (hd : datadogStage env m = Except.ok d)
    (hj : jaegerStage env m = Except.ok j) (hs : secretStage env m = Except.ok s)
    (hp : p ∈ fsGroupOps m ++ sidecarOps m sc ++ ecrOps m ++ d ++ j ++ s) :
    hasPrefix p.path "/metadata/annotations" = false := by
  rcases laterOps_mem env m sc d j s p hd hj hs hp with
    ⟨-, rfl⟩ | ⟨v, rfl⟩ | ⟨-, rfl⟩ | ⟨-, rfl | ⟨v, -, rfl⟩⟩ | ⟨-, rfl | ⟨v, -, rfl⟩⟩
      | ⟨v, rfl | rfl | rfl | rfl⟩
  all_goals
    cases hsc : m.AppendSidecar <;> cases hps : m.AppendImagePullSecret <;>
      simp [Patch.path, hasPrefix, String.data_append, List.isPrefixOf, hsc, hps,
        volumeMountsOf_idx]

/-! ## Success and failure -/

theorem secretMountsLoop_toBool (env : Env) (idx : Nat) (mounts : List SecretMount) :
    ∀ mc vc : Bool,
      (secretMountsLoop env idx mounts mc vc []).toBool
        = mounts.all (fun secretMount =>
            (env.renderSecretVolumeMount secretMount).toBool
              && (env.renderSecretVolume secretMount).toBool) := by
  induction mounts with
  | nil => intro mc vc; rfl
  | cons sm rest ih =>
    intro mc vc
    simp only [secretMountsLoop, List.all_cons]
    cases h1 : env.renderSecretVolumeMount sm with
    | error e => simp [Except.toBool]
    | ok vm =>
      cases h2 : env.renderSecretVolume sm with
      | error e => simp [Except.toBool]
      | ok v =>
        simp only []
        rw [secretMountsLoop_acc, ← ih
          (if (!mc) = true then ( Patch.create (volumeMountsOf idx) vm, true)
            else ( Patch.add (volumeMountsOf idx) vm, mc)).2
          (if (!vc) = true then ( Patch.create "volumes" v, true)
            else ( Patch.add "volumes" v, vc)).2]
        cases secretMountsLoop env idx rest
          (if (!mc) = true then ( Patch.create (volumeMountsOf idx) vm, true)
            else ( Patch.add (volumeMountsOf idx) vm, mc)).2
          (if (!vc) = true then ( Patch.create "volumes" v, true)
            else ( Patch.add "volumes" v, vc)).2 [] with
        | error e => simp [Except.map, Except.toBool]
        | ok ps => simp [Except.map, Except.toBool]

theorem secretMountsLoop_length (env : Env) (idx : Nat) (mounts : List SecretMount) :
    ∀ (mc vc : Bool) (ops : List Patch),
      secretMountsLoop env idx mounts mc vc [] = Except.ok ops →
      ops.length = 2 * mounts.length := by
  induction mounts with
  | nil =>
    intro mc vc ops h
    simp [secretMountsLoop] at h
    subst h
    rfl
  | cons sm rest ih =>
    intro mc vc ops h
    rw [secretMountsLoop_cons_ok] at h
    obtain ⟨vm, v, tail, -, -, htail, rfl⟩ := h
    have := ih true true tail htail
    simp only [List.length_cons, this]
    omega

theorem any_fail_eq_not_all (l : List SecretMount) (a b : SecretMount → Bool) :
    l.any (fun x => !a x || !b x) = !l.all (fun x => a x && b x) := by
  induction l with
  | nil => rfl
  | cons x rest ih =>
    simp only [List.any_cons, List.all_cons, ih]
    cases a x <;> cases b x <;> simp

theorem modeStage_toBool (env : Env) (m : Meta) :
    (modeStage env m).toBool
      = (isAppMeshCNIEnabled env.config m || (env.renderInit m.Init).toBool) := by
  unfold modeStage
  cases isAppMeshCNIEnabled env.config m <;> cases env.renderInit m.Init <;> rfl

theorem datadogStage_toBool (env : Env) (m : Meta) :
    (datadogStage env m).toBool
      = (!m.Sidecar.EnableDatadogTracing
          || (env.renderDatadogInitContainer m.Sidecar.DatadogAddress
                m.Sidecar.DatadogPort).toBool) := by
  unfold datadogStage
  cases m.Sidecar.EnableDatadogTracing <;>
    cases env.renderDatadogInitContainer m.Sidecar.DatadogAddress m.Sidecar.DatadogPort <;> rfl

theorem jaegerStage_toBool (env : Env) (m : Meta) :
    (jaegerStage env m).toBool
      = (!m.Sidecar.EnableJaegerTracing
          || (env.renderJaegerInitContainer m.Sidecar.JaegerAddress
                m.Sidecar.JaegerPort).toBool) := by
  unfold jaegerStage
  cases m.Sidecar.EnableJaegerTracing <;>
    cases env.renderJaegerInitContainer m.Sidecar.JaegerAddress m.Sidecar.JaegerPort <;> rfl

theorem stagedOps_toBool (env : Env) (m : Meta) :
    (stagedOps env m).toBool
      = ((modeStage env m).toBool && (env.renderSidecars m.Sidecar).toBool
          && (datadogStage env m).toBool && (jaegerStage env m).toBool
          && (secretStage env m).toBool) := by
  unfold stagedOps
  cases modeStage env m <;> cases env.renderSidecars m.Sidecar <;>
    cases datadogStage env m <;> cases jaegerStage env m <;> cases secretStage env m <;> rfl

theorem GeneratePatchOps_toBool (env : Env) (m : Meta) :
    (GeneratePatchOps env m).toBool = !rendererFails env m := by
  rw [GeneratePatchOps_eq_stages, stagedOps_toBool, modeStage_toBool, datadogStage_toBool,
    jaegerStage_toBool]
  unfold secretStage rendererFails
  rw [secretMountsLoop_toBool, any_fail_eq_not_all]
  cases isAppMeshCNIEnabled env.config m <;> cases (env.renderInit m.Init).toBool <;>
    cases (env.renderSidecars m.Sidecar).toBool <;>
    cases m.Sidecar.EnableDatadogTracing <;>
    cases (env.renderDatadogInitContainer m.Sidecar.DatadogAddress
      m.Sidecar.DatadogPort).toBool <;>
    cases m.Sidecar.EnableJaegerTracing <;>
    cases (env.renderJaegerInitContainer m.Sidecar.JaegerAddress
      m.Sidecar.JaegerPort).toBool <;>
    simp

theorem length_pos_iff_ne_empty (v : String) : 0 < v.length ↔ v ≠ "" := by
  rw [String.length, List.length_pos, ne_eq, ne_eq, String.ext_iff]

theorem annotationsPatches_none_cons (key value : String) (rest : List (String × String)) :
    annotationsPatches none ((key, value) :: rest)
      = Patch.createAnnotation key value
        :: rest.map (fun kv => Patch.updateAnnotation "add" (escapeJSONPointer kv.1) kv.2) := by
  simp [annotationsPatches, annotationsLoop, annotationsLoop_some, mapIndex, mapGet]

theorem updatePath_ne_mapPath (k : String) :
    "/metadata/annotations/" ++ k ≠ "/metadata/annotations" := by
  intro e
  have := congrArg (fun s : String => s.data.length) e
  simp [String.data_append] at this

theorem annotationsPatches_mapPath_count (existing : Option GoMap)
    (desired : List (String × String)) :
    (annotationsPatches existing desired).countP (fun p => p.path = "/metadata/annotations")
      ≤ 1 := by
  have hzero : ∀ (f : String × String → String) (l : List (String × String)),
      (l.map (fun kv => Patch.updateAnnotation (f kv) (escapeJSONPointer kv.1) kv.2)).countP
        (fun p => p.path = "/metadata/annotations") = 0 := by
    intro f l
    rw [List.countP_eq_zero]
    intro p hp
    rw [List.mem_map] at hp
    obtain ⟨kv, -, rfl⟩ := hp
    simpa [Patch.path] using updatePath_ne_mapPath _
  cases existing with
  | some ex =>
    rw [annotationsPatches_some, hzero]
    exact Nat.zero_le _
  | none =>
    cases desired with
    | nil => simp [annotationsPatches, annotationsLoop]
    | cons kv rest =>
      obtain ⟨k, v⟩ := kv
      rw [annotationsPatches_none_cons, List.countP_cons, hzero (fun _ => "add")]
      simp [Patch.path]

theorem escape_no_slash (key : String) : '/' ∉ (escapeJSONPointer key).data := by
  rw [escapeJSONPointer_data, List.mem_flatMap]
  rintro ⟨c, -, hc⟩
  unfold escapeChar at hc
  by_cases h1 : c = '~'
  · simp [h1] at hc
  · by_cases h2 : c = '/'
    · simp [h2] at hc
    · simp only [h1, h2, if_false, List.mem_singleton] at hc
      exact h2 hc.symm

theorem escape_tilde_followed (k : List Char) :
    ∀ pre post : List Char, k.flatMap escapeChar = pre ++ '~' :: post →
      ∃ rest, post = '0' :: rest ∨ post = '1' :: rest := by
  induction k with
  | nil =>
    intro pre post h
    simp at h
  | cons c t ih =>
    intro pre post h
    rw [List.flatMap_cons] at h
    by_cases h1 : c = '~'
    · subst h1
      cases pre with
      | nil =>
        simp [escapeChar] at h
        exact ⟨_, Or.inl h.symm⟩
      | cons x pre' =>
        cases pre' with
        | nil => simp [escapeChar] at h
        | cons y pre'' =>
          simp [escapeChar] at h
          exact ih pre'' post h.2.2
    · by_cases h2 : c = '/'
      · subst h2
        cases pre with
        | nil =>
          simp [escapeChar] at h
          exact ⟨_, Or.inr h.symm⟩
        | cons x pre' =>
          cases pre' with
          | nil => simp [escapeChar] at h
          | cons y pre'' =>
            simp [escapeChar] at h
            exact ih pre'' post h.2.2
      · cases pre with
        | nil =>
          simp [escapeChar, h1, h2] at h
        | cons x pre' =>
          simp [escapeChar, h1, h2] at h
          exact ih pre' post h.2

/-! ## Paths of each segment -/

theorem modeStage_paths (env : Env) (m : Meta) (a : List Patch)
    (ha : modeStage env m = Except.ok a) :
    ∀ p ∈ a, hasPrefix p.path "/metadata/annotations" = true
      ∨ p.path = "/spec/initContainers" ∨ p.path = "/spec/initContainers/-" := by
  intro p hp
  unfold modeStage at ha
  cases hc : isAppMeshCNIEnabled env.config m with
  | true =>
    simp only [hc, if_true, Except.ok.injEq] at ha
    subst ha
    left
    rcases annotationsLoop_mem _ _ _ p hp with h | ⟨k, v, rfl⟩ | ⟨o, k, v, rfl⟩
    · simp at h
    · rfl
    · simp [Patch.path, hasPrefix, String.data_append, List.isPrefixOf]
  | false =>
    simp only [hc, Bool.false_eq_true, if_false] at ha
    cases hi : env.renderInit m.Init with
    | error e => simp [hi] at ha
    | ok v =>
      simp only [hi, Except.ok.injEq] at ha
      subst ha
      right
      simp only [List.mem_singleton] at hp
      subst hp
      cases m.AppendInit
      · exact Or.inl rfl
      · exact Or.inr rfl

theorem fsGroupOps_eq (m : Meta) :
    fsGroupOps m
      = if m.InjectFSGroup then [ Patch.createElement "securityContext/fsGroup" "1337"]
        else [] := by
  unfold fsGroupOps
  cases m.InjectFSGroup <;> rfl

theorem fsGroupOps_paths (m : Meta) :
    ∀ p ∈ fsGroupOps m, p.path = "/spec/securityContext/fsGroup" := by
  intro p hp
  rw [fsGroupOps_eq] at hp
  cases hf : m.InjectFSGroup with
  | false => simp [hf] at hp
  | true =>
    simp only [hf, if_true, List.mem_singleton] at hp
    subst hp
    rfl

theorem sidecarOps_paths (m : Meta) (sidecars : List String) :
    ∀ p ∈ sidecarOps m sidecars,
      p.path = "/spec/containers" ∨ p.path = "/spec/containers/-" := by
  intro p hp
  unfold sidecarOps at hp
  cases hsc : m.AppendSidecar with
  | false =>
    simp only [hsc, Bool.false_eq_true, if_false, List.mem_singleton] at hp
    subst hp
    exact Or.inl rfl
  | true =>
    simp only [hsc, if_true, List.mem_map] at hp
    obtain ⟨v, -, rfl⟩ := hp
    exact Or.inr rfl

theorem ecrOps_paths (m : Meta) :
    ∀ p ∈ ecrOps m,
      p.path = "/spec/imagePullSecrets" ∨ p.path = "/spec/imagePullSecrets/-" := by
  intro p hp
  unfold ecrOps at hp
  cases hps : m.HasImagePullSecret with
  | false => simp [hps] at hp
  | true =>
    simp only [hps, if_true, List.mem_singleton] at hp
    subst hp
    cases m.AppendImagePullSecret
    · exact Or.inl rfl
    · exact Or.inr rfl

theorem datadogStage_paths (env : Env) (m : Meta) (d : List Patch)
    (hd : datadogStage env m = Except.ok d) :
    ∀ p ∈ d, p.path = "/spec/volumes/-" ∨ p.path = "/spec/initContainers/-" := by
  intro p hp
  unfold datadogStage at hd
  cases hdd : m.Sidecar.EnableDatadogTracing with
  | false =>
    simp only [hdd, Bool.false_eq_true, if_false, Except.ok.injEq] at hd
    subst hd
    simp at hp
  | true =>
    simp only [hdd, if_true] at hd
    cases hr : env.renderDatadogInitContainer m.Sidecar.DatadogAddress
        m.Sidecar.DatadogPort with
    | error e => simp [hr] at hd
    | ok v =>
      simp only [hr, Except.ok.injEq] at hd
      subst hd
      simp only [List.mem_cons, List.mem_singleton, List.not_mem_nil, or_false] at hp
      rcases hp with rfl | rfl
      · exact Or.inl rfl
      · exact Or.inr rfl

theorem jaegerStage_paths (env : Env) (m : Meta) (j : List Patch)
    (hj : jaegerStage env m = Except.ok j) :
    ∀ p ∈ j, p.path = "/spec/volumes/-" ∨ p.path = "/spec/initContainers/-" := by
  intro p hp
  unfold jaegerStage at hj
  cases hjj : m.Sidecar.EnableJaegerTracing with
  | false =>
    simp only [hjj, Bool.false_eq_true, if_false, Except.ok.injEq] at hj
    subst hj
    simp at hp
  | true =>
    simp only [hjj, if_true] at hj
    cases hr : env.renderJaegerInitContainer m.Sidecar.JaegerAddress
        m.Sidecar.JaegerPort with
    | error e => simp [hr] at hj
    | ok v =>
      simp only [hr, Except.ok.injEq] at hj
      subst hj
      simp only [List.mem_cons, List.mem_singleton, List.not_mem_nil, or_false] at hp
      rcases hp with rfl | rfl
      · exact Or.inl rfl
      · exact Or.inr rfl

theorem secretStage_paths (env : Env) (m : Meta) (s : List Patch)
    (hs : secretStage env m = Except.ok s) :
    ∀ p ∈ s,
      p.path = "/spec/containers/" ++ (if m.AppendSidecar then "1" else "0") ++ "/volumeMounts"
      ∨ p.path = "/spec/containers/" ++ (if m.AppendSidecar then "1" else "0")
          ++ "/volumeMounts/-"
      ∨ p.path = "/spec/volumes" ∨ p.path = "/spec/volumes/-" := by
  intro p hp
  rcases secretMountsLoop_mem env _ _ _ _ s hs p hp with ⟨v, rfl | rfl | rfl | rfl⟩
  · left
    cases hsc : m.AppendSidecar <;> simp [Patch.path, volumeMountsOf_idx, hsc]
  · right; left
    cases hsc : m.AppendSidecar <;> simp [Patch.path, volumeMountsOf_idx, hsc]
  · right; right; left; rfl
  · right; right; right; rfl

theorem ne_of_annotation_path (s t : String)
    (h : hasPrefix s "/metadata/annotations" = true)
    (ht : hasPrefix t "/metadata/annotations" = false) : s ≠ t := by
  intro e
  rw [e, ht] at h
  exact Bool.noConfusion h

/-! ## The index segment of volumeMounts paths -/

theorem volumeMounts_seg_plain (seg : String) :
    ("/spec/containers/" ++ seg ++ "/volumeMounts" = "/spec/containers/1/volumeMounts"
        → seg = "1")
    ∧ ("/spec/containers/" ++ seg ++ "/volumeMounts" = "/spec/containers/0/volumeMounts"
        → seg = "0")
    ∧ "/spec/containers/" ++ seg ++ "/volumeMounts" ≠ "/spec/containers/1/volumeMounts/-"
    ∧ "/spec/containers/" ++ seg ++ "/volumeMounts" ≠ "/spec/containers/0/volumeMounts/-" := by
  refine ⟨?_, ?_, ?_, ?_⟩
  · intro e
    have := congrArg String.data e
    simp [String.data_append] at this
    exact String.ext (List.append_cancel_right
      (show seg.data ++ "/volumeMounts".data = ['1'] ++ "/volumeMounts".data from this))
  · intro e
    have := congrArg String.data e
    simp [String.data_append] at this
    exact String.ext (List.append_cancel_right
      (show seg.data ++ "/volumeMounts".data = ['0'] ++ "/volumeMounts".data from this))
  · intro e
    have := congrArg (fun s : String => s.data.reverse) e
    simp [String.data_append] at this
  · intro e
    have := congrArg (fun s : String => s.data.reverse) e
    simp [String.data_append] at this

theorem volumeMounts_seg_append (seg : String) :
    ("/spec/containers/" ++ seg ++ "/volumeMounts/-" = "/spec/containers/1/volumeMounts/-"
        → seg = "1")
    ∧ ("/spec/containers/" ++ seg ++ "/volumeMounts/-" = "/spec/containers/0/volumeMounts/-"
        → seg = "0")
    ∧ "/spec/containers/" ++ seg ++ "/volumeMounts/-" ≠ "/spec/containers/1/volumeMounts"
    ∧ "/spec/containers/" ++ seg ++ "/volumeMounts/-" ≠ "/spec/containers/0/volumeMounts" := by
  refine ⟨?_, ?_, ?_, ?_⟩
  · intro e
    have := congrArg String.data e
    simp [String.data_append] at this
    exact String.ext (List.append_cancel_right
      (show seg.data ++ "/volumeMounts/-".data = ['1'] ++ "/volumeMounts/-".data from this))
  · intro e
    have := congrArg String.data e
    simp [String.data_append] at this
    exact String.ext (List.append_cancel_right
      (show seg.data ++ "/volumeMounts/-".data = ['0'] ++ "/volumeMounts/-".data from this))
  · intro e
    have := congrArg (fun s : String => s.data.reverse) e
    simp [String.data_append] at this
  · intro e
    have := congrArg (fun s : String => s.data.reverse) e
    simp [String.data_append] at this

/-- A path of the form `/spec/containers/<seg>/volumeMounts`, with or without the append
suffix, is none of the other paths `GeneratePatch` writes. -/
theorem volumeMounts_path_ne_others (seg X : String)
    (hform : X = "/spec/containers/" ++ seg ++ "/volumeMounts"
      ∨ X = "/spec/containers/" ++ seg ++ "/volumeMounts/-") :
    hasPrefix X "/metadata/annotations" = false
    ∧ X ≠ "/spec/initContainers" ∧ X ≠ "/spec/initContainers/-"
    ∧ X ≠ "/spec/securityContext/fsGroup"
    ∧ X ≠ "/spec/containers" ∧ X ≠ "/spec/containers/-"
    ∧ X ≠ "/spec/imagePullSecrets" ∧ X ≠ "/spec/imagePullSecrets/-"
    ∧ X ≠ "/spec/volumes" ∧ X ≠ "/spec/volumes/-" := by
  rcases hform with rfl | rfl
  · refine ⟨by simp [hasPrefix, String.data_append, List.isPrefixOf], ?_, ?_, ?_, ?_, ?_, ?_,
      ?_, ?_, ?_⟩ <;>
      first
      | (intro e
         have hdata := congrArg String.data e
         simp [String.data_append] at hdata
         done)
      | (intro e
         have hlen := congrArg (fun s : String => s.data.length) e
         simp [String.data_append] at hlen)
  · refine ⟨by simp [hasPrefix, String.data_append, List.isPrefixOf], ?_, ?_, ?_, ?_, ?_, ?_,
      ?_, ?_, ?_⟩ <;>
      first
      | (intro e
         have hdata := congrArg String.data e
         simp [String.data_append] at hdata
         done)
      | (intro e
         have hlen := congrArg (fun s : String => s.data.length) e
         simp [String.data_append] at hlen)

theorem toDigitsCore_length_ge (fuel : Nat) :
    ∀ (n : Nat) (ds : List Char), ds.length ≤ (Nat.toDigitsCore 10 fuel n ds).length := by
  induction fuel with
  | zero => intro n ds; simp [Nat.toDigitsCore]
  | succ f ih =>
    intro n ds
    simp only [Nat.toDigitsCore]
    split
    · simp
    · exact Nat.le_trans (by simp) (ih _ _)

theorem repr_length_ge_two (n : Nat) (h : 10 ≤ n) : 2 ≤ (Nat.repr n).length := by
  obtain ⟨k, rfl⟩ : ∃ k, n = k + 1 := ⟨n - 1, by omega⟩
  have hdiv : (k + 1) / 10 ≠ 0 := by omega
  obtain ⟨k', rfl⟩ : ∃ k', k = k' + 1 := ⟨k - 1, by omega⟩
  simp only [Nat.repr, Nat.toDigits, String.length, List.asString]
  rw [Nat.toDigitsCore]
  simp only [hdiv, if_false]
  rw [Nat.toDigitsCore]
  split
  · simp
  · exact Nat.le_trans (by simp) (toDigitsCore_length_ge _ _ _)

theorem toString_eq_digit (n : Nat) :
    (toString n = "0" → n = 0) ∧ (toString n = "1" → n = 1) := by
  by_cases h : 10 ≤ n
  · have hl := repr_length_ge_two n h
    constructor <;> intro e <;>
      · have e2 : Nat.repr n = _ := e
        rw [e2] at hl
        exact absurd hl (by decide)
  · have hn : n < 10 := by omega
    interval_cases n <;> constructor <;> intro e <;> first | rfl | exact absurd e (by decide)

theorem secretMountsLoop_true_ok (env : Env) (idx : Nat) (mounts : List SecretMount) :
    ∀ tail : List Patch, secretMountsLoop env idx mounts true true [] = Except.ok tail →
      ∃ rendered : List (String × String),
        List.Forall₂
          (fun secretMount r => env.renderSecretVolumeMount secretMount = Except.ok r.1
            ∧ env.renderSecretVolume secretMount = Except.ok r.2)
          mounts rendered
        ∧ tail = secretAppends idx rendered := by
  induction mounts with
  | nil =>
    intro tail h
    simp [secretMountsLoop] at h
    subst h
    exact ⟨[], List.Forall₂.nil, rfl⟩
  | cons sm rest ih =>
    intro tail h
    rw [secretMountsLoop_cons_ok] at h
    obtain ⟨vm, v, tl, h1, h2, htl, rfl⟩ := h
    obtain ⟨rendered, hall, rfl⟩ := ih tl htl
    exact ⟨(vm, v) :: rendered, List.Forall₂.cons ⟨h1, h2⟩ hall, by simp [secretAppends]⟩

theorem volumesPreexist_iff (m : Meta) :
    volumesPreexist m = true
      ↔ (m.PodSpec.Volumes.length > 0 ∨ m.PodSpec.AutomountServiceAccountToken = some true) := by
  unfold volumesPreexist
  simp

/-- The operations of the secret mounts when there is at least one: the first mount's
volumeMount and volume operations, created or appended according to the two flags, then
appends for the later mounts. -/
theorem secretStage_cons (env : Env) (m : Meta) (first : SecretMount)
    (others : List SecretMount) (s : List Patch)
    (hmounts : m.Sidecar.SecretMounts = first :: others)
    (hs : secretStage env m = Except.ok s) :
    ∃ vm0 v0 rendered,
      env.renderSecretVolumeMount first = Except.ok vm0
      ∧ env.renderSecretVolume first = Except.ok v0
      ∧ List.Forall₂
          (fun secretMount r => env.renderSecretVolumeMount secretMount = Except.ok r.1
            ∧ env.renderSecretVolume secretMount = Except.ok r.2)
          others rendered
      ∧ s = (if m.Sidecar.EnableDatadogTracing || m.Sidecar.EnableJaegerTracing
              then Patch.add (volumeMountsOf (envoyContainerIdxOf m)) vm0
              else Patch.create (volumeMountsOf (envoyContainerIdxOf m)) vm0)
            :: (if volumesPreexist m then Patch.add "volumes" v0
                else Patch.create "volumes" v0)
            :: secretAppends (envoyContainerIdxOf m) rendered := by
  unfold secretStage at hs
  rw [hmounts, secretMountsLoop_cons_ok] at hs
  obtain ⟨vm, v, tl, h1, h2, htl, rfl⟩ := hs
  obtain ⟨rendered, hall, rfl⟩ := secretMountsLoop_true_ok env _ _ tl htl
  exact ⟨vm, v, rendered, h1, h2, hall, rfl⟩

/-! ## Creates of a collection -/

theorem countP_isCreateOf_zero (coll : String) (l : List Patch)
    (h : ∀ p ∈ l, ∀ c v, p ≠ Patch.create c v) : l.countP (isCreateOf coll) = 0 := by
  rw [List.countP_eq_zero]
  intro p hp
  cases p with
  | create c v => exact absurd rfl (h _ hp c v)
  | createElement c v => simp [isCreateOf]
  | add c v => simp [isCreateOf]
  | createAnnotation k v => simp [isCreateOf]
  | updateAnnotation o k v => simp [isCreateOf]

theorem modeStage_creates (env : Env) (m : Meta) (a : List Patch) (coll : String)
    (ha : modeStage env m = Except.ok a) :
    a.countP (isCreateOf coll) ≤ (if coll = "initContainers" then 1 else 0) := by
  unfold modeStage at ha
  cases hc : isAppMeshCNIEnabled env.config m with
  | true =>
    simp only [hc, if_true, Except.ok.injEq] at ha
    subst ha
    rw [countP_isCreateOf_zero]
    · exact Nat.zero_le _
    · intro p hp c v e
      rcases annotationsLoop_mem _ _ _ p hp with h | ⟨k, w, rfl⟩ | ⟨o, k, w, rfl⟩
      · simp at h
      · exact Patch.noConfusion e
      · exact Patch.noConfusion e
  | false =>
    simp only [hc, Bool.false_eq_true, if_false] at ha
    cases hi : env.renderInit m.Init with
    | error e => simp [hi] at ha
    | ok v =>
      simp only [hi, Except.ok.injEq] at ha
      subst ha
      cases m.AppendInit <;> by_cases hcoll : coll = "initContainers" <;>
        simp [isCreateOf, hcoll]

theorem fsGroupOps_creates (m : Meta) (coll : String) :
    (fsGroupOps m).countP (isCreateOf coll) = 0 := by
  rw [fsGroupOps_eq]
  cases m.InjectFSGroup <;> simp [isCreateOf]

theorem sidecarOps_creates (m : Meta) (sidecars : List String) (coll : String) :
    (sidecarOps m sidecars).countP (isCreateOf coll) ≤ (if coll = "containers" then 1 else 0) := by
  unfold sidecarOps
  cases m.AppendSidecar
  · by_cases hcoll : coll = "containers" <;> simp [isCreateOf, hcoll]
  · simp only [if_true]
    rw [countP_isCreateOf_zero]
    · exact Nat.zero_le _
    · intro p hp c v e
      rw [List.mem_map] at hp
      obtain ⟨x, -, rfl⟩ := hp
      exact Patch.noConfusion e

theorem ecrOps_creates (m : Meta) (coll : String) :
    (ecrOps m).countP (isCreateOf coll) ≤ (if coll = "imagePullSecrets" then 1 else 0) := by
  unfold ecrOps
  cases m.HasImagePullSecret <;> cases m.AppendImagePullSecret <;>
    by_cases hcoll : coll = "imagePullSecrets" <;> simp [isCreateOf, hcoll]

theorem datadogStage_creates (env : Env) (m : Meta) (d : List Patch) (coll : String)
    (hd : datadogStage env m = Except.ok d) : d.countP (isCreateOf coll) = 0 := by
  unfold datadogStage at hd
  cases hdd : m.Sidecar.EnableDatadogTracing with
  | false =>
    simp only [hdd, Bool.false_eq_true, if_false, Except.ok.injEq] at hd
    subst hd
    rfl
  | true =>
    simp only [hdd, if_true] at hd
    cases hr : env.renderDatadogInitContainer m.Sidecar.DatadogAddress
        m.Sidecar.DatadogPort with
    | error e => simp [hr] at hd
    | ok v =>
      simp only [hr, Except.ok.injEq] at hd
      subst hd
      simp [isCreateOf]

theorem jaegerStage_creates (env : Env) (m : Meta) (j : List Patch) (coll : String)
    (hj : jaegerStage env m = Except.ok j) : j.countP (isCreateOf coll) = 0 := by
  unfold jaegerStage at hj
  cases hjj : m.Sidecar.EnableJaegerTracing with
  | false =>
    simp only [hjj, Bool.false_eq_true, if_false, Except.ok.injEq] at hj
    subst hj
    rfl
  | true =>
    simp only [hjj, if_true] at hj
    cases hr : env.renderJaegerInitContainer m.Sidecar.JaegerAddress
        m.Sidecar.JaegerPort with
    | error e => simp [hr] at hj
    | ok v =>
      simp only [hr, Except.ok.injEq] at hj
      subst hj
      simp [isCreateOf]

theorem secretAppends_creates (idx : Nat) (rendered : List (String × String))
    (coll : String) : (secretAppends idx rendered).countP (isCreateOf coll) = 0 := by
  apply countP_isCreateOf_zero
  intro p hp c v e
  unfold secretAppends at hp
  rw [List.mem_flatMap] at hp
  obtain ⟨r, -, hr⟩ := hp
  simp only [List.mem_cons, List.mem_singleton, List.not_mem_nil, or_false] at hr
  rcases hr with rfl | rfl <;> exact Patch.noConfusion e

theorem secretStage_creates (env : Env) (m : Meta) (s : List Patch) (coll : String)
    (hs : secretStage env m = Except.ok s) :
    s.countP (isCreateOf coll)
      ≤ (if coll = volumeMountsOf (envoyContainerIdxOf m) then 1 else 0)
        + (if coll = "volumes" then 1 else 0) := by
  cases hm : m.Sidecar.SecretMounts with
  | nil =>
    unfold secretStage at hs
    simp only [hm, secretMountsLoop, Except.ok.injEq] at hs
    subst hs
    exact Nat.zero_le _
  | cons first others =>
    obtain ⟨vm0, v0, rendered, -, -, -, rfl⟩ := secretStage_cons env m first others s hm hs
    simp only [List.countP_cons, secretAppends_creates, volumeMountsOf_idx]
    cases m.AppendSidecar <;>
      cases (m.Sidecar.EnableDatadogTracing || m.Sidecar.EnableJaegerTracing) <;>
      cases volumesPreexist m <;>
      simp only [if_true, if_false, Bool.false_eq_true] <;>
      by_cases h1 : coll = "containers/0/volumeMounts" <;>
      by_cases h3 : coll = "containers/1/volumeMounts" <;>
      by_cases h2 : coll = "volumes" <;>
      simp [isCreateOf, h1, h2, h3]

theorem collection_names (coll : String)
    (hcoll : coll ∈ ["initContainers", "containers", "imagePullSecrets", "volumes"]
      ∨ ∃ N : Nat, coll = volumeMountsOf N) :
    coll ≠ "securityContext/fsGroup" ∧ ∀ c : String, coll ≠ c ++ "/-" := by
  rcases hcoll with hmem | ⟨N, rfl⟩
  · simp only [List.mem_cons, List.mem_singleton, List.not_mem_nil, or_false] at hmem
    rcases hmem with rfl | rfl | rfl | rfl <;> refine ⟨by decide, ?_⟩ <;> intro c e <;>
      · have := congrArg (fun s : String => s.data.reverse) e
        simp [String.data_append] at this
  · refine ⟨?_, ?_⟩
    · intro e
      have := congrArg String.data e
      simp [volumeMountsOf, String.data_append] at this
    · intro c e
      have := congrArg (fun s : String => s.data.reverse) e
      simp [volumeMountsOf, String.data_append] at this

theorem specPath_inj (c coll : String) (e : "/spec/" ++ c = "/spec/" ++ coll) : c = coll := by
  have := congrArg String.data e
  simp only [String.data_append] at this
  exact String.ext (List.append_cancel_left this)

theorem sum_le_one_of_distinct (x1 x2 x3 x4 x5 coll : String) (n1 n2 n3 n4 : Nat)
    (hd : [x1, x2, x3, x4, x5].Nodup)
    (h1 : n1 ≤ (if coll = x1 then 1 else 0)) (h2 : n2 ≤ (if coll = x2 then 1 else 0))
    (h3 : n3 ≤ (if coll = x3 then 1 else 0))
    (h4 : n4 ≤ (if coll = x4 then 1 else 0) + (if coll = x5 then 1 else 0)) :
    n1 + n2 + n3 + n4 ≤ 1 := by
  simp only [List.nodup_cons, List.mem_cons, List.mem_singleton, List.not_mem_nil, not_or,
    or_false, List.nodup_nil, and_true] at hd
  obtain ⟨⟨d12, d13, d14, d15⟩, ⟨d23, d24, d25⟩, ⟨d34, d35⟩, d45, -⟩ := hd
  by_cases c1 : coll = x1
  · rw [if_pos c1] at h1
    rw [if_neg (fun e => d12 (c1.symm.trans e))] at h2
    rw [if_neg (fun e => d13 (c1.symm.trans e))] at h3
    rw [if_neg (fun e => d14 (c1.symm.trans e)), if_neg (fun e => d15 (c1.symm.trans e))] at h4
    omega
  · rw [if_neg c1] at h1
    by_cases c2 : coll = x2
    · rw [if_neg (fun e => d23 (c2.symm.trans e))] at h3
      rw [if_neg (fun e => d24 (c2.symm.trans e)),
        if_neg (fun e => d25 (c2.symm.trans e))] at h4
      rw [if_pos c2] at h2
      omega
    · rw [if_neg c2] at h2
      by_cases c3 : coll = x3
      · rw [if_neg (fun e => d34 (c3.symm.trans e)),
          if_neg (fun e => d35 (c3.symm.trans e))] at h4
        rw [if_pos c3] at h3
        omega
      · rw [if_neg c3] at h3
        by_cases c4 : coll = x4
        · rw [if_pos c4, if_neg (fun e => d45 (c4.symm.trans e))] at h4
          omega
        · rw [if_neg c4] at h4
          by_cases c5 : coll = x5
          · rw [if_pos c5] at h4
            omega
          · rw [if_neg c5] at h4
            omega

theorem creates_le_one (env : Env) (m : Meta) (ops : List Patch) (coll : String)
    (h : GeneratePatchOps env m = Except.ok ops) : ops.countP (isCreateOf coll) ≤ 1 := by
  rw [GeneratePatchOps_ok_iff] at h
  obtain ⟨a, sc, d, j, s, ha, -, hd, hj, hs, rfl⟩ := h
  have h1 := modeStage_creates env m a coll ha
  have h2 := fsGroupOps_creates m coll
  have h3 := sidecarOps_creates m sc coll
  have h4 := ecrOps_creates m coll
  have h5 := datadogStage_creates env m d coll hd
  have h6 := jaegerStage_creates env m j coll hj
  have h7 := secretStage_creates env m s coll hs
  have hsum := sum_le_one_of_distinct "initContainers" "containers" "imagePullSecrets"
    (volumeMountsOf (envoyContainerIdxOf m)) "volumes" coll _ _ _ _
    (by rw [volumeMountsOf_idx]; cases m.AppendSidecar <;> decide) h1 h3 h4 h7
  simp only [List.countP_append]
  omega

theorem createElement_mem (env : Env) (m : Meta) (ops : List Patch) (c v : String)
    (h : GeneratePatchOps env m = Except.ok ops) (hp : Patch.createElement c v ∈ ops) :
    c = "securityContext/fsGroup" := by
  rcases GeneratePatchOps_mem env m ops _ h hp with
    ⟨-, ⟨k, w, e⟩ | ⟨o, k, w, e⟩⟩ | ⟨-, w, e⟩ | ⟨-, e⟩ | ⟨w, e⟩ | ⟨-, e⟩
      | ⟨-, e | ⟨w, -, e⟩⟩ | ⟨-, e | ⟨w, -, e⟩⟩ | ⟨w, e | e | e | e⟩
  · exact Patch.noConfusion e
  · exact Patch.noConfusion e
  · cases hx : m.AppendInit <;> simp [hx] at e
  · exact (Patch.createElement.inj e).1
  · cases hx : m.AppendSidecar <;> simp [hx] at e
  · cases hx : m.AppendImagePullSecret <;> simp [hx] at e
  all_goals exact Patch.noConfusion e

theorem specPath_op (q : Patch) (t : String) (hq : q.path = "/spec/" ++ t) : q.op = "add" := by
  cases q with
  | create c v => rfl
  | createElement c v => rfl
  | add c v => rfl
  | createAnnotation k v =>
    exact absurd hq (ne_of_hasPrefix_false _ _ (annotationPath_not_spec "" t))
  | updateAnnotation o k v =>
    exact absurd hq (updatePath_ne k _
      (by simp [hasPrefix, String.data_append, List.isPrefixOf]))

theorem path_eq_collection (env : Env) (m : Meta) (ops : List Patch) (coll : String)
    (hcoll : coll ∈ ["initContainers", "containers", "imagePullSecrets", "volumes"]
      ∨ ∃ N : Nat, coll = volumeMountsOf N)
    (h : GeneratePatchOps env m = Except.ok ops) (p : Patch) (hp : p ∈ ops)
    (hpath : p.path = "/spec/" ++ coll) : ∃ v, p = Patch.create coll v := by
  obtain ⟨hfs, hdash⟩ := collection_names coll hcoll
  cases p with
  | create c v => exact ⟨v, by rw [specPath_inj c coll hpath]⟩
  | createElement c v =>
    have hc := createElement_mem env m ops c v h hp
    exact absurd ((specPath_inj c coll hpath).symm.trans hc) hfs
  | add c v =>
    have e : "/spec/" ++ (c ++ "/-") = "/spec/" ++ coll := by
      rw [← hpath]
      apply String.ext
      simp [Patch.path, String.data_append]
    exact absurd (specPath_inj _ _ e).symm (hdash c)
  | createAnnotation k v =>
    exact absurd hpath (ne_of_hasPrefix_false _ _ (annotationPath_not_spec "" coll))
  | updateAnnotation o k v =>
    exact absurd hpath (updatePath_ne k _
      (by simp [hasPrefix, String.data_append, List.isPrefixOf]))

/-! ## Claims -/

/-- C1. Scenario of the specification: in sidecar-injection mode, with `AppendInit=false`,
`InjectFSGroup=true`, `AppendSidecar=true`, no image pull secret, no tracing, two secret
mounts, no pod volumes and `AutomountServiceAccountToken` unset, when every renderer
succeeds and one sidecar is rendered, `GeneratePatch` emits exactly seven operations:
init create, fsGroup add, sidecar append, volumeMounts create at index 1 and volumes
create for the first secret, volumeMounts append at index 1 and volumes append for the
second secret; the result is their serialization, without error. -/
theorem GeneratePatch_scenario_seven_ops (env : Env) (m : Meta) (sm0 sm1 : SecretMount)
    (init sidecar vm0 v0 vm1 v1 : String)
    (hmode : isAppMeshCNIEnabled env.config m = false)
    (hinit : m.AppendInit = false) (hfs : m.InjectFSGroup = true)
    (hsc : m.AppendSidecar = true) (hps : m.HasImagePullSecret = false)
    (hdd : m.Sidecar.EnableDatadogTracing = false)
    (hj : m.Sidecar.EnableJaegerTracing = false)
    (hsm : m.Sidecar.SecretMounts = [sm0, sm1])
    (hvol : m.PodSpec.Volumes = []) (hauto : m.PodSpec.AutomountServiceAccountToken = none)
    (rinit : env.renderInit m.Init = Except.ok init)
    (rsc : env.renderSidecars m.Sidecar = Except.ok [sidecar])
    (rvm0 : env.renderSecretVolumeMount sm0 = Except.ok vm0)
    (rv0 : env.renderSecretVolume sm0 = Except.ok v0)
    (rvm1 : env.renderSecretVolumeMount sm1 = Except.ok vm1)
    (rv1 : env.renderSecretVolume sm1 = Except.ok v1) :
    ∃ ops, GeneratePatchOps env m = Except.ok ops
      ∧ GeneratePatch env m = (encodePatches ops, none)
      ∧ ops = [ Patch.create "initContainers" init,
                Patch.createElement "securityContext/fsGroup" "1337",
                Patch.add "containers" sidecar,
                Patch.create "containers/1/volumeMounts" vm0,
                Patch.create "volumes" v0,
                Patch.add "containers/1/volumeMounts" vm1,
                Patch.add "volumes" v1]
      ∧ ops.map Patch.path = ["/spec/initContainers", "/spec/securityContext/fsGroup",
          "/spec/containers/-", "/spec/containers/1/volumeMounts", "/spec/volumes",
          "/spec/containers/1/volumeMounts/-", "/spec/volumes/-"] := by
  have hops : GeneratePatchOps env m = Except.ok
      [ Patch.create "initContainers" init,
        Patch.createElement "securityContext/fsGroup" "1337",
        Patch.add "containers" sidecar,
        Patch.create "containers/1/volumeMounts" vm0,
        Patch.create "volumes" v0,
        Patch.add "containers/1/volumeMounts" vm1,
        Patch.add "volumes" v1] := by
    rw [GeneratePatchOps_eq_stages]
    have hidx : volumeMountsOf 1 = "containers/1/volumeMounts" := by decide
    have hfsv : podFSGroupPatch defaultFSGroup
        = Patch.createElement "securityContext/fsGroup" "1337" := by decide
    simp [stagedOps, modeStage, datadogStage, jaegerStage, secretStage, fsGroupOps, sidecarOps,
      ecrOps, volumesPreexist, envoyContainerIdxOf, secretMountsLoop, hmode, hinit, hfs, hsc,
      hps, hdd, hj, hsm, hvol, hauto, rinit, rsc, rvm0, rv0, rvm1, rv1, hidx, hfsv]
  refine ⟨_, hops, ?_, rfl, ?_⟩
  · simp [GeneratePatch, hops]
  · rfl

/-- Witness for C1: the scenario on the sample configuration. -/
theorem GeneratePatch_scenario_seven_ops_witness :
    ∃ ops, GeneratePatchOps sampleEnv scenarioMeta = Except.ok ops
      ∧ GeneratePatch sampleEnv scenarioMeta = (encodePatches ops, none)
      ∧ ops = [ Patch.create "initContainers" "\x7b\"name\":\"proxyinit\",\"ports\":\"8080\"\x7d",
                Patch.createElement "securityContext/fsGroup" "1337",
                Patch.add "containers" "\x7b\"name\":\"envoy\"\x7d",
                Patch.create "containers/1/volumeMounts"
                  "\x7b\"name\":\"certs\",\"mountPath\":\"/certs\"\x7d",
                Patch.create "volumes" "\x7b\"name\":\"certs\"\x7d",
                Patch.add "containers/1/volumeMounts"
                  "\x7b\"name\":\"keys\",\"mountPath\":\"/keys\"\x7d",
                Patch.add "volumes" "\x7b\"name\":\"keys\"\x7d"]
      ∧ ops.map Patch.path = ["/spec/initContainers", "/spec/securityContext/fsGroup",
          "/spec/containers/-", "/spec/containers/1/volumeMounts", "/spec/volumes",
          "/spec/containers/1/volumeMounts/-", "/spec/volumes/-"] :=
  GeneratePatch_scenario_seven_ops sampleEnv scenarioMeta ⟨"certs", "/certs"⟩ ⟨"keys", "/keys"⟩
    _ _ _ _ _ _ rfl rfl rfl rfl rfl rfl rfl rfl rfl rfl rfl rfl rfl rfl rfl rfl

/-- C2, counterexample: a pod in mesh-CNI mode with `AppendInit=false`; `GeneratePatch`
succeeds and its first operation is an annotation operation, not `/spec/initContainers`. -/
theorem first_op_in_cni_mode_is_annotation :
    cniMeta.AppendInit = false
    ∧ (GeneratePatch sampleEnv cniMeta).2 = none
    ∧ ∃ first rest, GeneratePatchOps sampleEnv cniMeta = Except.ok (first :: rest)
        ∧ first.path = "/metadata/annotations/appmesh.k8s.aws~1egressIgnoredIPs"
        ∧ first.path ≠ "/spec/initContainers" :=
  ⟨rfl, rfl, _, _, rfl, rfl, by decide⟩

/-- C2, amended: in sidecar-injection mode (`isAppMeshCNIEnabled` false) with
`AppendInit=false`, when `GeneratePatch` succeeds its first operation is an `add` at
path `/spec/initContainers` whose value is the rendered init container wrapped in
`[` `]`. -/
theorem first_op_creates_initContainers (env : Env) (m : Meta) (ops : List Patch)
    (hmode : isAppMeshCNIEnabled env.config m = false) (hinit : m.AppendInit = false)
    (h : GeneratePatchOps env m = Except.ok ops) :
    ∃ init first rest, env.renderInit m.Init = Except.ok init ∧ ops = first :: rest
      ∧ first = Patch.create "initContainers" init
      ∧ first.op = "add" ∧ first.path = "/spec/initContainers"
      ∧ first.value = "[" ++ init ++ "]" := by
  rw [GeneratePatchOps_ok_iff] at h
  obtain ⟨a, sc, d, j, s, ha, -, -, -, -, rfl⟩ := h
  unfold modeStage at ha
  simp only [hmode, Bool.false_eq_true, if_false, hinit] at ha
  cases hi : env.renderInit m.Init with
  | error e => simp [hi] at ha
  | ok init =>
    simp only [hi, Except.ok.injEq] at ha
    subst ha
    refine ⟨init, Patch.create "initContainers" init,
      fsGroupOps m ++ sidecarOps m sc ++ ecrOps m ++ d ++ j ++ s, rfl, ?_, rfl, rfl, rfl, rfl⟩
    simp

/-- Witness for C2, amended: the sample pod. -/
theorem first_op_creates_initContainers_witness :
    ∃ init first rest, sampleEnv.renderInit sampleMeta.Init = Except.ok init
      ∧ [ Patch.create "initContainers" "\x7b\"name\":\"proxyinit\",\"ports\":\"8080\"\x7d",
          Patch.createElement "securityContext/fsGroup" "1337",
          Patch.add "containers" "\x7b\"name\":\"envoy\"\x7d"] = first :: rest
      ∧ first = Patch.create "initContainers" init
      ∧ first.op = "add" ∧ first.path = "/spec/initContainers"
      ∧ first.value = "[" ++ init ++ "]" :=
  first_op_creates_initContainers sampleEnv sampleMeta _ rfl rfl rfl

/-- C3. With `AppendInit=true`, when `GeneratePatch` succeeds no operation has path
`/spec/initContainers`, and every operation whose path starts with `/spec/initContainers`
is an `add` at exactly the append path of that collection (the collection path followed
by a slash and a dash). -/
theorem appendInit_targets_append_path (env : Env) (m : Meta) (ops : List Patch)
    (hinit : m.AppendInit = true) (h : GeneratePatchOps env m = Except.ok ops) :
    ∀ p ∈ ops, p.path ≠ "/spec/initContainers"
      ∧ (hasPrefix p.path "/spec/initContainers" = true
          → p.op = "add" ∧ p.path = "/spec/initContainers/-") := by
  intro p hp
  rcases GeneratePatchOps_mem env m ops p h hp with
    ⟨-, ⟨k, v, rfl⟩ | ⟨o, k, v, rfl⟩⟩ | ⟨-, v, rfl⟩ | ⟨-, rfl⟩ | ⟨v, rfl⟩ | ⟨-, rfl⟩
      | ⟨-, rfl | ⟨v, -, rfl⟩⟩ | ⟨-, rfl | ⟨v, -, rfl⟩⟩ | ⟨v, rfl | rfl | rfl | rfl⟩
  all_goals
    cases hsc : m.AppendSidecar <;> cases hps : m.AppendImagePullSecret <;>
      simp [Patch.path, Patch.op, hasPrefix, String.data_append, List.isPrefixOf, hinit,
        hsc, hps, volumeMountsOf_idx]
  all_goals exact updatePath_ne _ _ (by decide)

/-- Witness for C3: the init-container operation of a pod with `AppendInit=true`. -/
theorem appendInit_targets_append_path_witness :
    ( Patch.add "initContainers" "\x7b\"name\":\"proxyinit\",\"ports\":\"8080\"\x7d").path
        ≠ "/spec/initContainers"
    ∧ ( Patch.add "initContainers" "\x7b\"name\":\"proxyinit\",\"ports\":\"8080\"\x7d").op = "add"
    ∧ ( Patch.add "initContainers" "\x7b\"name\":\"proxyinit\",\"ports\":\"8080\"\x7d").path
        = "/spec/initContainers/-" :=
  have h := appendInit_targets_append_path sampleEnv appendInitMeta _ rfl rfl
    ( Patch.add "initContainers" "\x7b\"name\":\"proxyinit\",\"ports\":\"8080\"\x7d")
    (List.Mem.head _)
  ⟨h.1, h.2 (by decide)⟩

/-- C5. For a present (non-nil) existing annotation map, `annotationsPatches` emits one
operation per desired key, in visiting order: its path is `/metadata/annotations/` followed
by the escaped key, its value is the desired value, and its op is `replace` exactly when
the existing map holds a non-empty value at the key, `add` otherwise. -/
theorem annotationsPatches_present (existing : GoMap) (desired : List (String × String)) :
    List.Forall₂
      (fun kv p =>
        p.path = "/metadata/annotations/" ++ escapeJSONPointer kv.1
        ∧ p.value = "\"" ++ kv.2 ++ "\""
        ∧ (p.op = "replace" ↔ ∃ w, mapGet (some existing) kv.1 = some w ∧ w ≠ "")
        ∧ (p.op = "add" ↔ ¬ ∃ w, mapGet (some existing) kv.1 = some w ∧ w ≠ ""))
      desired (annotationsPatches (some existing) desired) := by
  rw [annotationsPatches_some, List.forall₂_map_right_iff, List.forall₂_same]
  intro kv _
  have hidx : mapIndex (some existing) kv.1 ≠ ""
      ↔ ∃ w, mapGet (some existing) kv.1 = some w ∧ w ≠ "" := by
    unfold mapIndex
    cases mapGet (some existing) kv.1 with
    | none => simp
    | some w => simp
  refine ⟨rfl, rfl, ?_, ?_⟩
  · rw [← hidx]
    by_cases hne : mapIndex (some existing) kv.1 = "" <;> simp [Patch.op, hne]
  · rw [← hidx]
    by_cases hne : mapIndex (some existing) kv.1 = "" <;> simp [Patch.op, hne]

/-- C6, counterexample: a pod with the mesh-CNI annotation `enabled` and Datadog tracing;
`GeneratePatch` succeeds and emits an operation on the initContainers collection. -/
theorem cni_mode_emits_tracing_initContainer :
    mapGet cniDatadogMeta.PodMetadata.Annotations sampleConfig.AppMeshCNIAnnotation
        = some "enabled"
    ∧ (GeneratePatch sampleEnv cniDatadogMeta).2 = none
    ∧ ∃ ops p, GeneratePatchOps sampleEnv cniDatadogMeta = Except.ok ops ∧ p ∈ ops
        ∧ p = Patch.add "initContainers" "\x7b\"name\":\"dd\",\"to\":\"datadog.svc:8126\"\x7d"
        ∧ p.path = "/spec/initContainers/-" :=
  ⟨rfl, rfl, _, _, rfl, by decide, rfl, rfl⟩

/-- C6, amended: when the pod carries the mesh-CNI annotation with value `enabled` and
`GeneratePatch` succeeds, the only operations whose path starts with
`/spec/initContainers` are the appends of the config init containers of the enabled
tracing backends (Datadog, Jaeger); with both backends disabled there is none. -/
theorem cni_mode_initContainers_only_tracing (env : Env) (m : Meta) (ops : List Patch)
    (hcni : mapGet m.PodMetadata.Annotations env.config.AppMeshCNIAnnotation = some "enabled")
    (h : GeneratePatchOps env m = Except.ok ops) :
    (∀ p ∈ ops, hasPrefix p.path "/spec/initContainers" = true →
      p.path = "/spec/initContainers/-"
      ∧ ((m.Sidecar.EnableDatadogTracing = true
            ∧ ∃ v, env.renderDatadogInitContainer m.Sidecar.DatadogAddress
                m.Sidecar.DatadogPort = Except.ok v ∧ p = Patch.add "initContainers" v)
          ∨ (m.Sidecar.EnableJaegerTracing = true
            ∧ ∃ v, env.renderJaegerInitContainer m.Sidecar.JaegerAddress
                m.Sidecar.JaegerPort = Except.ok v ∧ p = Patch.add "initContainers" v)))
    ∧ (m.Sidecar.EnableDatadogTracing = false → m.Sidecar.EnableJaegerTracing = false →
        ∀ p ∈ ops, hasPrefix p.path "/spec/initContainers" = false) := by
  have hmode := isAppMeshCNIEnabled_of_annotation env.config m hcni
  have main : ∀ p ∈ ops, hasPrefix p.path "/spec/initContainers" = true →
      p.path = "/spec/initContainers/-"
      ∧ ((m.Sidecar.EnableDatadogTracing = true
            ∧ ∃ v, env.renderDatadogInitContainer m.Sidecar.DatadogAddress
                m.Sidecar.DatadogPort = Except.ok v ∧ p = Patch.add "initContainers" v)
          ∨ (m.Sidecar.EnableJaegerTracing = true
            ∧ ∃ v, env.renderJaegerInitContainer m.Sidecar.JaegerAddress
                m.Sidecar.JaegerPort = Except.ok v ∧ p = Patch.add "initContainers" v)) := by
    intro p hp hpre
    rcases GeneratePatchOps_mem env m ops p h hp with
      ⟨-, ⟨k, v, rfl⟩ | ⟨o, k, v, rfl⟩⟩ | ⟨hf, -⟩ | ⟨-, rfl⟩ | ⟨v, rfl⟩ | ⟨-, rfl⟩
        | ⟨hdd, rfl | ⟨v, hv, rfl⟩⟩ | ⟨hj, rfl | ⟨v, hv, rfl⟩⟩ | ⟨v, rfl | rfl | rfl | rfl⟩
    · simp [Patch.path, hasPrefix] at hpre
    · simp [Patch.path, hasPrefix, String.data_append, List.isPrefixOf] at hpre
    · rw [hmode] at hf
      exact Bool.noConfusion hf
    · simp [Patch.path, hasPrefix] at hpre
    · cases hsc : m.AppendSidecar <;> simp [hsc, Patch.path, hasPrefix] at hpre
    · cases hps : m.AppendImagePullSecret <;> simp [hps, Patch.path, hasPrefix] at hpre
    · simp [Patch.path, hasPrefix] at hpre
    · exact ⟨rfl, Or.inl ⟨hdd, v, hv, rfl⟩⟩
    · simp [Patch.path, hasPrefix] at hpre
    · exact ⟨rfl, Or.inr ⟨hj, v, hv, rfl⟩⟩
    · cases hsc : m.AppendSidecar <;>
        simp [hsc, Patch.path, hasPrefix, volumeMountsOf_idx] at hpre
    · cases hsc : m.AppendSidecar <;>
        simp [hsc, Patch.path, hasPrefix, volumeMountsOf_idx] at hpre
    · simp [Patch.path, hasPrefix] at hpre
    · simp [Patch.path, hasPrefix] at hpre
  refine ⟨main, ?_⟩
  intro hdd hj p hp
  cases hpre : hasPrefix p.path "/spec/initContainers" with
  | false => rfl
  | true =>
    rcases (main p hp hpre).2 with ⟨h1, -⟩ | ⟨h1, -⟩
    · rw [hdd] at h1; exact Bool.noConfusion h1
    · rw [hj] at h1; exact Bool.noConfusion h1

/-- Witness for C6, amended: the Datadog init container of a pod in mesh-CNI mode. -/
theorem cni_mode_initContainers_only_tracing_witness :
    ( Patch.add "initContainers" "\x7b\"name\":\"dd\",\"to\":\"datadog.svc:8126\"\x7d").path
      = "/spec/initContainers/-" :=
  ((cni_mode_initContainers_only_tracing sampleEnv cniDatadogMeta _ rfl rfl).1
    ( Patch.add "initContainers" "\x7b\"name\":\"dd\",\"to\":\"datadog.svc:8126\"\x7d")
    (by decide) (by decide)).1

/-- C7. When the pod carries the mesh-CNI annotation with value `enabled`, the seven mesh
annotation keys are pairwise distinct, `range` visits every map entry once, and
`GeneratePatch` succeeds, the output starts with exactly seven annotation operations, one
for each key with its value (ignored IPs, ignored ports, ports, `enabled`, proxy UID, proxy
egress port, proxy ingress port), and no later operation has a path under
`/metadata/annotations`. -/
theorem cni_mode_seven_annotations (env : Env) (m : Meta) (ops : List Patch)
    (hcni : mapGet m.PodMetadata.Annotations env.config.AppMeshCNIAnnotation = some "enabled")
    (hkeys : [ env.config.AppMeshEgressIgnoredIPsAnnotation,
               env.config.AppMeshEgressIgnoredPortsAnnotation,
               env.config.AppMeshPortsAnnotation,
               env.config.AppMeshSidecarInjectAnnotation,
               env.config.AppMeshIgnoredUIDAnnotation,
               env.config.AppMeshProxyEgressPortAnnotation,
               env.config.AppMeshProxyIngressPortAnnotation].Nodup)
    (hrange : ∀ entries : GoMap, (env.rangeOrder entries).Perm entries)
    (h : GeneratePatchOps env m = Except.ok ops) :
    ∃ ann rest, ops = ann ++ rest ∧ ann.length = 7
      ∧ ann.Perm
          ([( env.config.AppMeshEgressIgnoredIPsAnnotation, m.Init.IgnoredIPs),
            ( env.config.AppMeshEgressIgnoredPortsAnnotation, m.Init.EgressIgnoredPorts),
            ( env.config.AppMeshPortsAnnotation, m.Init.Ports),
            ( env.config.AppMeshSidecarInjectAnnotation, "enabled"),
            ( env.config.AppMeshIgnoredUIDAnnotation, env.config.AppMeshProxyUID),
            ( env.config.AppMeshProxyEgressPortAnnotation, env.config.AppMeshProxyEgressPort),
            ( env.config.AppMeshProxyIngressPortAnnotation,
              env.config.AppMeshProxyIngressPort)].map
            (fun kv => Patch.updateAnnotation
              (if mapIndex m.PodMetadata.Annotations kv.1 ≠ "" then "replace" else "add")
              (escapeJSONPointer kv.1) kv.2))
      ∧ (∀ p ∈ ann, hasPrefix p.path "/metadata/annotations" = true)
      ∧ (∀ p ∈ rest, hasPrefix p.path "/metadata/annotations" = false) := by
  have hmode := isAppMeshCNIEnabled_of_annotation env.config m hcni
  rw [GeneratePatchOps_ok_iff] at h
  obtain ⟨a, sc, d, j, s, ha, -, hd, hj, hs, rfl⟩ := h
  obtain ⟨existing, hex⟩ : ∃ existing, m.PodMetadata.Annotations = some existing := by
    cases hann : m.PodMetadata.Annotations with
    | none => simp [mapGet, hann] at hcni
    | some existing => exact ⟨existing, rfl⟩
  have hlit : newAnnotations env.config m = newAnnotationEntries env.config m :=
    mapLiteral_of_nodup _ hkeys
  have hperm := hrange (newAnnotationEntries env.config m)
  unfold modeStage at ha
  simp only [hmode, if_true, Except.ok.injEq] at ha
  have ha2 : a = (env.rangeOrder (newAnnotationEntries env.config m)).map
      (fun kv => Patch.updateAnnotation
        (if mapIndex (some existing) kv.1 ≠ "" then "replace" else "add")
        (escapeJSONPointer kv.1) kv.2) := by
    rw [← ha]
    unfold appMeshCNIAnnotationsPatch
    rw [hex, hlit, annotationsPatches_some]
  refine ⟨a, fsGroupOps m ++ sidecarOps m sc ++ ecrOps m ++ d ++ j ++ s, by simp, ?_, ?_, ?_, ?_⟩
  · rw [ha2, List.length_map, hperm.length_eq]
    rfl
  · rw [ha2, hex]
    exact hperm.map _
  · intro p hp
    rw [ha2, List.mem_map] at hp
    obtain ⟨kv, -, rfl⟩ := hp
    show hasPrefix ("/metadata/annotations/" ++ escapeJSONPointer kv.1) _ = true
    simp [hasPrefix, String.data_append, List.isPrefixOf]
  · intro p hp
    exact laterOps_not_annotation env m sc d j s p hd hj hs hp

/-- Witness for C7: the sample pod in mesh-CNI mode. -/
theorem cni_mode_seven_annotations_witness :
    ∃ ann rest,
      [ Patch.updateAnnotation "add" "appmesh.k8s.aws~1egressIgnoredIPs" "169.254.169.254",
        Patch.updateAnnotation "add" "appmesh.k8s.aws~1egressIgnoredPorts" "22",
        Patch.updateAnnotation "add" "appmesh.k8s.aws~1ports" "8080",
        Patch.updateAnnotation "add" "appmesh.k8s.aws~1sidecarInjectorWebhook" "enabled",
        Patch.updateAnnotation "add" "appmesh.k8s.aws~1ignoredUID" "1337",
        Patch.updateAnnotation "add" "appmesh.k8s.aws~1proxyEgressPort" "15001",
        Patch.updateAnnotation "add" "appmesh.k8s.aws~1proxyIngressPort" "15000",
        Patch.createElement "securityContext/fsGroup" "1337",
        Patch.add "containers" "\x7b\"name\":\"envoy\"\x7d"] = ann ++ rest
      ∧ ann.length = 7
      ∧ ann.Perm
          ([( sampleConfig.AppMeshEgressIgnoredIPsAnnotation, cniMeta.Init.IgnoredIPs),
            ( sampleConfig.AppMeshEgressIgnoredPortsAnnotation, cniMeta.Init.EgressIgnoredPorts),
            ( sampleConfig.AppMeshPortsAnnotation, cniMeta.Init.Ports),
            ( sampleConfig.AppMeshSidecarInjectAnnotation, "enabled"),
            ( sampleConfig.AppMeshIgnoredUIDAnnotation, sampleConfig.AppMeshProxyUID),
            ( sampleConfig.AppMeshProxyEgressPortAnnotation, sampleConfig.AppMeshProxyEgressPort),
            ( sampleConfig.AppMeshProxyIngressPortAnnotation,
              sampleConfig.AppMeshProxyIngressPort)].map
            (fun kv => Patch.updateAnnotation
              (if mapIndex cniMeta.PodMetadata.Annotations kv.1 ≠ "" then "replace" else "add")
              (escapeJSONPointer kv.1) kv.2))
      ∧ (∀ p ∈ ann, hasPrefix p.path "/metadata/annotations" = true)
      ∧ (∀ p ∈ rest, hasPrefix p.path "/metadata/annotations" = false) :=
  cni_mode_seven_annotations sampleEnv cniMeta _ rfl (by decide)
    (fun entries => List.Perm.refl entries) rfl

/-- C8. With both tracing backends enabled, when `GeneratePatch` succeeds the output is:
the mode, fsGroup, sidecar and image-pull-secret operations; then four consecutive appends
(Datadog config volume, Datadog init container, Jaeger config volume, Jaeger init
container), each an `add` at the append path of `/spec/volumes` or `/spec/initContainers`;
then the secret-mount operations. -/
theorem tracing_both_four_appends (env : Env) (m : Meta) (ops : List Patch)
    (hdd : m.Sidecar.EnableDatadogTracing = true) (hj : m.Sidecar.EnableJaegerTracing = true)
    (h : GeneratePatchOps env m = Except.ok ops) :
    ∃ modeOps sidecars datadogInit jaegerInit secretOps,
      modeStage env m = Except.ok modeOps
      ∧ env.renderSidecars m.Sidecar = Except.ok sidecars
      ∧ env.renderDatadogInitContainer m.Sidecar.DatadogAddress m.Sidecar.DatadogPort
          = Except.ok datadogInit
      ∧ env.renderJaegerInitContainer m.Sidecar.JaegerAddress m.Sidecar.JaegerPort
          = Except.ok jaegerInit
      ∧ secretStage env m = Except.ok secretOps
      ∧ ops = (modeOps ++ fsGroupOps m ++ sidecarOps m sidecars ++ ecrOps m)
          ++ [ Patch.add "volumes" env.renderDatadogConfigVolume,
               Patch.add "initContainers" datadogInit,
               Patch.add "volumes" env.renderJaegerConfigVolume,
               Patch.add "initContainers" jaegerInit]
          ++ secretOps
      ∧ [ Patch.add "volumes" env.renderDatadogConfigVolume,
          Patch.add "initContainers" datadogInit,
          Patch.add "volumes" env.renderJaegerConfigVolume,
          Patch.add "initContainers" jaegerInit].map (fun p => (p.op, p.path))
        = [("add", "/spec/volumes/-"), ("add", "/spec/initContainers/-"),
           ("add", "/spec/volumes/-"), ("add", "/spec/initContainers/-")] := by
  rw [GeneratePatchOps_ok_iff] at h
  obtain ⟨a, sc, d, j, s, ha, hsc, hd, hjs, hs, rfl⟩ := h
  unfold datadogStage at hd
  unfold jaegerStage at hjs
  simp only [hdd, hj, if_true] at hd hjs
  cases hr1 : env.renderDatadogInitContainer m.Sidecar.DatadogAddress m.Sidecar.DatadogPort with
  | error e => simp [hr1] at hd
  | ok datadogInit =>
    cases hr2 : env.renderJaegerInitContainer m.Sidecar.JaegerAddress m.Sidecar.JaegerPort with
    | error e => simp [hr2] at hjs
    | ok jaegerInit =>
      simp only [hr1, hr2, Except.ok.injEq] at hd hjs
      subst hd
      subst hjs
      exact ⟨a, sc, datadogInit, jaegerInit, s, ha, hsc, rfl, rfl, hs, by simp, rfl⟩

/-- Witness for C8: the sample pod with both tracing backends and one secret mount. -/
theorem tracing_both_four_appends_witness :
    ∃ ops, GeneratePatchOps sampleEnv tracingMeta = Except.ok ops
      ∧ ∃ modeOps sidecars datadogInit jaegerInit secretOps,
        modeStage sampleEnv tracingMeta = Except.ok modeOps
        ∧ sampleEnv.renderSidecars tracingMeta.Sidecar = Except.ok sidecars
        ∧ sampleEnv.renderDatadogInitContainer tracingMeta.Sidecar.DatadogAddress
            tracingMeta.Sidecar.DatadogPort = Except.ok datadogInit
        ∧ sampleEnv.renderJaegerInitContainer tracingMeta.Sidecar.JaegerAddress
            tracingMeta.Sidecar.JaegerPort = Except.ok jaegerInit
        ∧ secretStage sampleEnv tracingMeta = Except.ok secretOps
        ∧ ops = (modeOps ++ fsGroupOps tracingMeta ++ sidecarOps tracingMeta sidecars
              ++ ecrOps tracingMeta)
            ++ [ Patch.add "volumes" sampleEnv.renderDatadogConfigVolume,
                 Patch.add "initContainers" datadogInit,
                 Patch.add "volumes" sampleEnv.renderJaegerConfigVolume,
                 Patch.add "initContainers" jaegerInit]
            ++ secretOps
        ∧ [ Patch.add "volumes" sampleEnv.renderDatadogConfigVolume,
            Patch.add "initContainers" datadogInit,
            Patch.add "volumes" sampleEnv.renderJaegerConfigVolume,
            Patch.add "initContainers" jaegerInit].map (fun p => (p.op, p.path))
          = [("add", "/spec/volumes/-"), ("add", "/spec/initContainers/-"),
             ("add", "/spec/volumes/-"), ("add", "/spec/initContainers/-")] :=
  ⟨_, rfl, tracing_both_four_appends sampleEnv tracingMeta _ rfl rfl rfl⟩

/-- C9. No partial patch.  Either some renderer that `GeneratePatch` calls fails, and then
the result is the empty byte slice together with an error; or none fails, and then the
result is, without error, `[` + every operation of every segment joined by `,` + `]`,
with two operations for each secret mount. -/
theorem GeneratePatch_error_iff_renderer_fails (env : Env) (m : Meta) :
    (GeneratePatch env m).2.isSome = rendererFails env m
    ∧ ((rendererFails env m = true ∧ ∃ err, GeneratePatch env m = ("", some err))
      ∨ (rendererFails env m = false
        ∧ ∃ modeOps sidecars datadogOps jaegerOps secretOps,
          modeStage env m = Except.ok modeOps
          ∧ env.renderSidecars m.Sidecar = Except.ok sidecars
          ∧ datadogStage env m = Except.ok datadogOps
          ∧ jaegerStage env m = Except.ok jaegerOps
          ∧ secretStage env m = Except.ok secretOps
          ∧ secretOps.length = 2 * m.Sidecar.SecretMounts.length
          ∧ GeneratePatch env m
              = ("[" ++ ",".intercalate
                  ((modeOps ++ fsGroupOps m ++ sidecarOps m sidecars ++ ecrOps m
                    ++ datadogOps ++ jaegerOps ++ secretOps).map Patch.render) ++ "]",
                 none))) := by
  have hb := GeneratePatchOps_toBool env m
  cases hg : GeneratePatchOps env m with
  | error err =>
    rw [hg] at hb
    have hf : rendererFails env m = true := by simpa [Except.toBool] using hb
    refine ⟨by simp [GeneratePatch, hg, hf], Or.inl ⟨hf, err, ?_⟩⟩
    simp [GeneratePatch, hg, emptyPatch]
  | ok ops =>
    rw [hg] at hb
    have hf : rendererFails env m = false := by simpa [Except.toBool] using hb
    refine ⟨by simp [GeneratePatch, hg, hf], Or.inr ⟨hf, ?_⟩⟩
    · obtain ⟨a, sc, d, j, s, ha, hsc, hd, hj, hs, rfl⟩ :=
        (GeneratePatchOps_ok_iff env m ops).1 hg
      refine ⟨a, sc, d, j, s, ha, hsc, hd, hj, hs, ?_, ?_⟩
      · exact secretMountsLoop_length env _ _ _ _ s hs
      · simp [GeneratePatch, hg, encodePatches]

/-- Witness for C9: the renderers of the second secret mount of `failingMeta` fail, and
`GeneratePatch` returns the empty byte slice with the error. -/
theorem GeneratePatch_error_iff_renderer_fails_witness :
    rendererFails sampleEnv failingMeta = true
    ∧ ∃ err, GeneratePatch sampleEnv failingMeta = ("", some err) :=
  (GeneratePatch_error_iff_renderer_fails sampleEnv failingMeta).2.elim id
    (fun h => absurd h.1 (by decide))

/-- C10, the code at the failing input: Datadog tracing on a pod without volumes and with
`AutomountServiceAccountToken` false.  The Datadog volume is appended to `/spec/volumes`
(fourth operation) although the pod has no volumes and no earlier operation creates
`/spec/volumes`; the array is only created afterwards, by the first secret mount. -/
theorem tracing_volume_append_without_create :
    volumesPreexist datadogNoVolumesMeta = false
    ∧ GeneratePatch sampleEnv datadogNoVolumesMeta
        = (encodePatches
            [ Patch.create "initContainers" "\x7b\"name\":\"proxyinit\",\"ports\":\"8080\"\x7d",
              Patch.createElement "securityContext/fsGroup" "1337",
              Patch.add "containers" "\x7b\"name\":\"envoy\"\x7d",
              Patch.add "volumes" "\x7b\"name\":\"config\"\x7d",
              Patch.add "initContainers" "\x7b\"name\":\"dd\",\"to\":\"datadog.svc:8126\"\x7d",
              Patch.add "containers/1/volumeMounts"
                "\x7b\"name\":\"certs\",\"mountPath\":\"/certs\"\x7d",
              Patch.create "volumes" "\x7b\"name\":\"certs\"\x7d"], none)
    ∧ (GeneratePatchOps sampleEnv datadogNoVolumesMeta).map (fun ops => ops.map Patch.path)
        = Except.ok ["/spec/initContainers", "/spec/securityContext/fsGroup",
            "/spec/containers/-", "/spec/volumes/-", "/spec/initContainers/-",
            "/spec/containers/1/volumeMounts/-", "/spec/volumes"] :=
  ⟨rfl, rfl, rfl⟩

/-- C11. When `GeneratePatch` succeeds, for each collection among `initContainers`,
`containers`, `imagePullSecrets`, `volumes` and `containers/<N>/volumeMounts`: at most
one operation has the collection path itself; such an operation is a create (an `add`
whose value is an array); and every operation emitted after it on that collection is an
`add` at the append path of the collection. -/
theorem create_at_most_once (env : Env) (m : Meta) (ops : List Patch) (coll : String)
    (hcoll : coll ∈ ["initContainers", "containers", "imagePullSecrets", "volumes"]
      ∨ ∃ N : Nat, coll = volumeMountsOf N)
    (h : GeneratePatchOps env m = Except.ok ops) :
    ops.countP (fun p => p.path = "/spec/" ++ coll) ≤ 1
    ∧ (∀ p ∈ ops, p.path = "/spec/" ++ coll →
        ∃ v, p = Patch.create coll v ∧ p.op = "add" ∧ p.value = "[" ++ v ++ "]")
    ∧ (∀ before c after, ops = before ++ c :: after → c.path = "/spec/" ++ coll →
        ∀ q ∈ after, (q.path = "/spec/" ++ coll ∨ q.path = "/spec/" ++ coll ++ "/-") →
          q.op = "add" ∧ q.path = "/spec/" ++ coll ++ "/-") := by
  have hle : ops.countP (fun p => p.path = "/spec/" ++ coll) ≤ 1 := by
    refine Nat.le_trans (List.countP_mono_left ?_) (creates_le_one env m ops coll h)
    intro p hp hpath
    obtain ⟨v, rfl⟩ := path_eq_collection env m ops coll hcoll h p hp
      (by simpa using hpath)
    simp [isCreateOf]
  refine ⟨hle, ?_, ?_⟩
  · intro p hp hpath
    obtain ⟨v, rfl⟩ := path_eq_collection env m ops coll hcoll h p hp hpath
    exact ⟨v, rfl, rfl, rfl⟩
  · intro before c after hops hc q hq hqpath
    have hne : q.path ≠ "/spec/" ++ coll := by
      intro e
      have hpos : 0 < after.countP (fun p => p.path = "/spec/" ++ coll) :=
        List.countP_pos_iff.2 ⟨q, hq, by simpa using e⟩
      rw [hops, List.countP_append, List.countP_cons] at hle
      simp only [hc, decide_True, if_true] at hle
      omega
    rcases hqpath with e | e
    · exact absurd e hne
    · refine ⟨specPath_op q (coll ++ "/-") ?_, e⟩
      rw [e]
      apply String.ext
      simp [String.data_append]

/-- Witness for C11: the volumes collection of the scenario pod; the create of the first
secret volume is followed by an append. -/
theorem create_at_most_once_witness :
    ∃ ops, GeneratePatchOps sampleEnv scenarioMeta = Except.ok ops
      ∧ ops.countP (fun p => p.path = "/spec/" ++ "volumes") ≤ 1 :=
  ⟨_, rfl, (create_at_most_once sampleEnv scenarioMeta _ "volumes" (Or.inl (by decide)) rfl).1⟩

/-- C12. When `GeneratePatch` succeeds, every operation whose path is
`/spec/containers/<N>/volumeMounts`, with or without the append suffix, has the same
index `N`, fixed by `AppendSidecar` alone: `1` when it is set and `0` when it is not. -/
theorem envoyContainerIdx_consistent (env : Env) (m : Meta) (ops : List Patch)
    (h : GeneratePatchOps env m = Except.ok ops) (p : Patch) (hp : p ∈ ops) (N : Nat)
    (hform : p.path = "/spec/containers/" ++ toString N ++ "/volumeMounts"
      ∨ p.path = "/spec/containers/" ++ toString N ++ "/volumeMounts/-") :
    N = (if m.AppendSidecar then 1 else 0)
    ∧ (p.path = "/spec/" ++ volumeMountsOf (envoyContainerIdxOf m)
      ∨ p.path = "/spec/" ++ volumeMountsOf (envoyContainerIdxOf m) ++ "/-") := by
  rw [GeneratePatchOps_ok_iff] at h
  obtain ⟨a, sc, d, j, s, ha, -, hd, hj, hs, rfl⟩ := h
  obtain ⟨h0, h1, h2, h3, h4, h5, h6, h7, h8, h9⟩ :=
    volumeMounts_path_ne_others (toString N) p.path hform
  simp only [List.mem_append] at hp
  rcases hp with (((((hp | hp) | hp) | hp) | hp) | hp) | hp
  · rcases modeStage_paths env m a ha p hp with h | h | h
    · rw [h0] at h; exact Bool.noConfusion h
    · exact absurd h h1
    · exact absurd h h2
  · exact absurd (fsGroupOps_paths m p hp) h3
  · rcases sidecarOps_paths m sc p hp with h | h
    · exact absurd h h4
    · exact absurd h h5
  · rcases ecrOps_paths m p hp with h | h
    · exact absurd h h6
    · exact absurd h h7
  · rcases datadogStage_paths env m d hd p hp with h | h
    · exact absurd h h9
    · exact absurd h h2
  · rcases jaegerStage_paths env m j hj p hp with h | h
    · exact absurd h h9
    · exact absurd h h2
  · have hd0 := (toString_eq_digit N).1
    have hd1 := (toString_eq_digit N).2
    obtain ⟨p1, p0, pn1, pn0⟩ := volumeMounts_seg_plain (toString N)
    obtain ⟨q1, q0, qn1, qn0⟩ := volumeMounts_seg_append (toString N)
    rcases secretStage_paths env m s hs p hp with h | h | h | h
    · cases hsc : m.AppendSidecar <;> simp only [hsc, if_true, if_false,
        Bool.false_eq_true] at h ⊢ <;> rcases hform with e | e
      · exact ⟨hd0 (p0 (e.symm.trans h)), Or.inl (by rw [h, volumeMountsOf_idx, hsc]; rfl)⟩
      · exact absurd (e.symm.trans h) qn0
      · exact ⟨hd1 (p1 (e.symm.trans h)), Or.inl (by rw [h, volumeMountsOf_idx, hsc]; rfl)⟩
      · exact absurd (e.symm.trans h) qn1
    · cases hsc : m.AppendSidecar <;> simp only [hsc, if_true, if_false,
        Bool.false_eq_true] at h ⊢ <;> rcases hform with e | e
      · exact absurd (e.symm.trans h) pn0
      · exact ⟨hd0 (q0 (e.symm.trans h)), Or.inr (by rw [h, volumeMountsOf_idx, hsc]; rfl)⟩
      · exact absurd (e.symm.trans h) pn1
      · exact ⟨hd1 (q1 (e.symm.trans h)), Or.inr (by rw [h, volumeMountsOf_idx, hsc]; rfl)⟩
    · exact absurd h h8
    · exact absurd h h9

/-- Witness for C12: the volumeMounts operation of the scenario pod is at index 1. -/
theorem envoyContainerIdx_consistent_witness :
    (1 : Nat) = (if scenarioMeta.AppendSidecar then 1 else 0) :=
  (envoyContainerIdx_consistent sampleEnv scenarioMeta _ rfl
    ( Patch.create "containers/1/volumeMounts"
      "\x7b\"name\":\"certs\",\"mountPath\":\"/certs\"\x7d")
    (by decide) 1 (Or.inl rfl)).1

/-- C13, counterexample: the pod carries the Fargate-profile label with a non-empty value,
but its mesh-CNI annotation is present with value `disabled`; `isAppMeshCNIEnabled` is
false and the mesh init container is emitted. -/
theorem fargate_label_overridden_by_annotation :
    mapGet fargateOptOutMeta.PodMetadata.Labels sampleConfig.FargateProfileLabel
        = some "fp-default"
    ∧ isAppMeshCNIEnabled sampleConfig fargateOptOutMeta = false
    ∧ (GeneratePatchOps sampleEnv fargateOptOutMeta).map (fun ops => ops.map Patch.path)
        = Except.ok ["/spec/initContainers", "/spec/securityContext/fsGroup",
            "/spec/containers/-"] :=
  ⟨rfl, rfl, rfl⟩

/-- C13, amended: `isAppMeshCNIEnabled` is true exactly when the mesh-CNI annotation is
present with value `enabled`, or the annotation is absent and the Fargate-profile label is
present with a non-empty value.  When it is true the first segment of the output is the
annotation operations and `renderInit` is not consulted; when it is false the first segment
is the single init-container operation. -/
theorem isAppMeshCNIEnabled_iff (env : Env) (m : Meta) :
    (isAppMeshCNIEnabled env.config m = true ↔
      mapGet m.PodMetadata.Annotations env.config.AppMeshCNIAnnotation = some "enabled"
      ∨ (mapGet m.PodMetadata.Annotations env.config.AppMeshCNIAnnotation = none
          ∧ ∃ v, mapGet m.PodMetadata.Labels env.config.FargateProfileLabel = some v ∧ v ≠ ""))
    ∧ modeStage env m
        = (if isAppMeshCNIEnabled env.config m then Except.ok (appMeshCNIAnnotationsPatch env m)
            else (env.renderInit m.Init).map (fun initPatch =>
              [if m.AppendInit then Patch.add "initContainers" initPatch
                else Patch.create "initContainers" initPatch])) := by
  refine ⟨?_, ?_⟩
  · unfold isAppMeshCNIEnabled
    cases ha : mapGet m.PodMetadata.Annotations env.config.AppMeshCNIAnnotation with
    | some v => simp
    | none =>
      cases hl : mapGet m.PodMetadata.Labels env.config.FargateProfileLabel with
      | some v => simp [length_pos_iff_ne_empty]
      | none => simp
  · unfold modeStage
    cases isAppMeshCNIEnabled env.config m <;> cases env.renderInit m.Init <;> rfl

/-- Witness for C13, amended: a pod without the annotation and with the Fargate label. -/
theorem isAppMeshCNIEnabled_iff_witness :
    isAppMeshCNIEnabled sampleEnv.config fargateMeta = true :=
  (isAppMeshCNIEnabled_iff sampleEnv fargateMeta).1.mpr (Or.inr ⟨rfl, _, rfl, by decide⟩)

/-- C14. With an absent (nil) existing annotation map and `n ≥ 1` desired entries,
`annotationsPatches` emits `n` operations: first one `add` at `/metadata/annotations`
whose value is the object holding only the first visited key and its value, then for each
remaining entry an `add` at `/metadata/annotations/` followed by the escaped key.  For any
input, at most one operation has path exactly `/metadata/annotations`. -/
theorem annotationsPatches_absent (key value : String) (rest : List (String × String))
    (existing : Option GoMap) (desired : List (String × String)) :
    (∃ first others, annotationsPatches none ((key, value) :: rest) = first :: others
      ∧ (first :: others).length = rest.length + 1
      ∧ first.op = "add" ∧ first.path = "/metadata/annotations"
      ∧ first.value = "\x7b\"" ++ key ++ "\": \"" ++ value ++ "\"\x7d"
      ∧ List.Forall₂
          (fun kv p => p.op = "add"
            ∧ p.path = "/metadata/annotations/" ++ escapeJSONPointer kv.1
            ∧ p.value = "\"" ++ kv.2 ++ "\"")
          rest others)
    ∧ (annotationsPatches existing desired).countP
        (fun p => p.path = "/metadata/annotations") ≤ 1 := by
  refine ⟨⟨_, _, annotationsPatches_none_cons key value rest, by simp, rfl, rfl, rfl, ?_⟩,
    annotationsPatches_mapPath_count existing desired⟩
  rw [List.forall₂_map_right_iff, List.forall₂_same]
  intro kv _
  exact ⟨rfl, rfl, rfl⟩

/-- C15. With at least one secret mount, when `GeneratePatch` succeeds its output ends
with the secret-mount operations, a volumeMount operation and then a volume operation for
each mount in declared order.  The volume operation of the first mount is an append to
`/spec/volumes` if the pod has a volume or `AutomountServiceAccountToken` is true, and
otherwise a create at `/spec/volumes` with a one-element array; the volume operation of
every later mount is an append. -/
theorem secret_volume_create_or_append (env : Env) (m : Meta) (ops : List Patch)
    (first : SecretMount) (others : List SecretMount)
    (hmounts : m.Sidecar.SecretMounts = first :: others)
    (h : GeneratePatchOps env m = Except.ok ops) :
    ∃ (before : List Patch) (mountOp : Patch) (v0 : String)
      (rendered : List (String × String)),
      env.renderSecretVolume first = Except.ok v0
      ∧ List.Forall₂
          (fun secretMount r => env.renderSecretVolumeMount secretMount = Except.ok r.1
            ∧ env.renderSecretVolume secretMount = Except.ok r.2)
          others rendered
      ∧ secretStage env m = Except.ok
          (mountOp
            :: (if m.PodSpec.Volumes.length > 0
                  ∨ m.PodSpec.AutomountServiceAccountToken = some true
                then Patch.add "volumes" v0 else Patch.create "volumes" v0)
            :: rendered.flatMap (fun r =>
                [ Patch.add (volumeMountsOf (envoyContainerIdxOf m)) r.1,
                  Patch.add "volumes" r.2]))
      ∧ ops = before
          ++ mountOp
            :: (if m.PodSpec.Volumes.length > 0
                  ∨ m.PodSpec.AutomountServiceAccountToken = some true
                then Patch.add "volumes" v0 else Patch.create "volumes" v0)
            :: rendered.flatMap (fun r =>
                [ Patch.add (volumeMountsOf (envoyContainerIdxOf m)) r.1,
                  Patch.add "volumes" r.2])
      ∧ (∀ v, ( Patch.add "volumes" v).op = "add"
          ∧ ( Patch.add "volumes" v).path = "/spec/volumes/-"
          ∧ ( Patch.add "volumes" v).value = v)
      ∧ ( Patch.create "volumes" v0).op = "add"
      ∧ ( Patch.create "volumes" v0).path = "/spec/volumes"
      ∧ ( Patch.create "volumes" v0).value = "[" ++ v0 ++ "]" := by
  rw [GeneratePatchOps_ok_iff] at h
  obtain ⟨a, sc, d, j, s, -, -, -, -, hs, rfl⟩ := h
  obtain ⟨vm0, v0, rendered, -, hv0, hall, rfl⟩ := secretStage_cons env m first others s hmounts hs
  have hif : (if volumesPreexist m then Patch.add "volumes" v0 else Patch.create "volumes" v0)
      = (if m.PodSpec.Volumes.length > 0 ∨ m.PodSpec.AutomountServiceAccountToken = some true
          then Patch.add "volumes" v0 else Patch.create "volumes" v0) := by
    by_cases hc : m.PodSpec.Volumes.length > 0
        ∨ m.PodSpec.AutomountServiceAccountToken = some true
    · rw [if_pos hc, if_pos ((volumesPreexist_iff m).2 hc)]
    · rw [if_neg hc, if_neg (fun hv => hc ((volumesPreexist_iff m).1 hv))]
  rw [hif] at hs ⊢
  exact ⟨a ++ fsGroupOps m ++ sidecarOps m sc ++ ecrOps m ++ d ++ j, _, v0, rendered, hv0,
    hall, hs, rfl, fun _ => ⟨rfl, rfl, rfl⟩, rfl, rfl, rfl⟩

/-- Witness for C15: the scenario pod has no volumes; the volume of its first secret
mount is created and the volume of the second is appended. -/
theorem secret_volume_create_or_append_witness :
    ∃ ops, GeneratePatchOps sampleEnv scenarioMeta = Except.ok ops
      ∧ ∃ (before : List Patch) (mountOp : Patch) (v0 : String)
        (rendered : List (String × String)),
        sampleEnv.renderSecretVolume ⟨"certs", "/certs"⟩ = Except.ok v0
        ∧ List.Forall₂
            (fun secretMount r => sampleEnv.renderSecretVolumeMount secretMount = Except.ok r.1
              ∧ sampleEnv.renderSecretVolume secretMount = Except.ok r.2)
            [⟨"keys", "/keys"⟩] rendered
        ∧ secretStage sampleEnv scenarioMeta = Except.ok
            (mountOp
              :: (if scenarioMeta.PodSpec.Volumes.length > 0
                    ∨ scenarioMeta.PodSpec.AutomountServiceAccountToken = some true
                  then Patch.add "volumes" v0 else Patch.create "volumes" v0)
              :: rendered.flatMap (fun r =>
                  [ Patch.add (volumeMountsOf (envoyContainerIdxOf scenarioMeta)) r.1,
                    Patch.add "volumes" r.2]))
        ∧ ops = before
            ++ mountOp
              :: (if scenarioMeta.PodSpec.Volumes.length > 0
                    ∨ scenarioMeta.PodSpec.AutomountServiceAccountToken = some true
                  then Patch.add "volumes" v0 else Patch.create "volumes" v0)
              :: rendered.flatMap (fun r =>
                  [ Patch.add (volumeMountsOf (envoyContainerIdxOf scenarioMeta)) r.1,
                    Patch.add "volumes" r.2])
        ∧ (∀ v, ( Patch.add "volumes" v).op = "add"
            ∧ ( Patch.add "volumes" v).path = "/spec/volumes/-"
            ∧ ( Patch.add "volumes" v).value = v)
        ∧ ( Patch.create "volumes" v0).op = "add"
        ∧ ( Patch.create "volumes" v0).path = "/spec/volumes"
        ∧ ( Patch.create "volumes" v0).value = "[" ++ v0 ++ "]" :=
  ⟨_, rfl, secret_volume_create_or_append sampleEnv scenarioMeta _ ⟨"certs", "/certs"⟩
    [⟨"keys", "/keys"⟩] rfl rfl⟩

/-- C16. With at least one secret mount, when `GeneratePatch` succeeds its output ends
with the secret-mount operations: for each mount in declared order, its volumeMount
operation immediately followed by its volume operation.  The volumeMount operation of the
first mount is a create at `/spec/containers/<idx>/volumeMounts` with a one-element array
exactly when neither tracing backend is enabled, and an append otherwise; the volumeMount
operation of every later mount is an append. -/
theorem secret_volumeMount_create_or_append (env : Env) (m : Meta) (ops : List Patch)
    (first : SecretMount) (others : List SecretMount)
    (hmounts : m.Sidecar.SecretMounts = first :: others)
    (h : GeneratePatchOps env m = Except.ok ops) :
    ∃ (before : List Patch) (vm0 v0 : String) (volumeOp : Patch)
      (rendered : List (String × String)),
      env.renderSecretVolumeMount first = Except.ok vm0
      ∧ env.renderSecretVolume first = Except.ok v0
      ∧ (volumeOp = Patch.add "volumes" v0 ∨ volumeOp = Patch.create "volumes" v0)
      ∧ List.Forall₂
          (fun secretMount r => env.renderSecretVolumeMount secretMount = Except.ok r.1
            ∧ env.renderSecretVolume secretMount = Except.ok r.2)
          others rendered
      ∧ secretStage env m = Except.ok
          ((if m.Sidecar.EnableDatadogTracing = false ∧ m.Sidecar.EnableJaegerTracing = false
              then Patch.create (volumeMountsOf (envoyContainerIdxOf m)) vm0
              else Patch.add (volumeMountsOf (envoyContainerIdxOf m)) vm0)
            :: volumeOp
            :: rendered.flatMap (fun r =>
                [ Patch.add (volumeMountsOf (envoyContainerIdxOf m)) r.1,
                  Patch.add "volumes" r.2]))
      ∧ ops = before
          ++ (if m.Sidecar.EnableDatadogTracing = false ∧ m.Sidecar.EnableJaegerTracing = false
              then Patch.create (volumeMountsOf (envoyContainerIdxOf m)) vm0
              else Patch.add (volumeMountsOf (envoyContainerIdxOf m)) vm0)
            :: volumeOp
            :: rendered.flatMap (fun r =>
                [ Patch.add (volumeMountsOf (envoyContainerIdxOf m)) r.1,
                  Patch.add "volumes" r.2])
      ∧ (∀ vm, ( Patch.add (volumeMountsOf (envoyContainerIdxOf m)) vm).op = "add"
          ∧ ( Patch.add (volumeMountsOf (envoyContainerIdxOf m)) vm).path
              = "/spec/containers/" ++ toString (envoyContainerIdxOf m) ++ "/volumeMounts/-"
          ∧ ( Patch.add (volumeMountsOf (envoyContainerIdxOf m)) vm).value = vm)
      ∧ ( Patch.create (volumeMountsOf (envoyContainerIdxOf m)) vm0).op = "add"
      ∧ ( Patch.create (volumeMountsOf (envoyContainerIdxOf m)) vm0).path
          = "/spec/containers/" ++ toString (envoyContainerIdxOf m) ++ "/volumeMounts"
      ∧ ( Patch.create (volumeMountsOf (envoyContainerIdxOf m)) vm0).value
          = "[" ++ vm0 ++ "]" := by
  rw [GeneratePatchOps_ok_iff] at h
  obtain ⟨a, sc, d, j, s, -, -, -, -, hs, rfl⟩ := h
  obtain ⟨vm0, v0, rendered, hvm0, hv0, hall, rfl⟩ :=
    secretStage_cons env m first others s hmounts hs
  have hif : (if m.Sidecar.EnableDatadogTracing || m.Sidecar.EnableJaegerTracing
        then Patch.add (volumeMountsOf (envoyContainerIdxOf m)) vm0
        else Patch.create (volumeMountsOf (envoyContainerIdxOf m)) vm0)
      = (if m.Sidecar.EnableDatadogTracing = false ∧ m.Sidecar.EnableJaegerTracing = false
          then Patch.create (volumeMountsOf (envoyContainerIdxOf m)) vm0
          else Patch.add (volumeMountsOf (envoyContainerIdxOf m)) vm0) := by
    cases m.Sidecar.EnableDatadogTracing <;> cases m.Sidecar.EnableJaegerTracing <;> simp
  rw [hif] at hs ⊢
  have hadd : "/spec/" ++ volumeMountsOf (envoyContainerIdxOf m) ++ "/-"
      = "/spec/containers/" ++ toString (envoyContainerIdxOf m) ++ "/volumeMounts/-" := by
    apply String.ext
    simp [volumeMountsOf, String.data_append]
  have hcreate : "/spec/" ++ volumeMountsOf (envoyContainerIdxOf m)
      = "/spec/containers/" ++ toString (envoyContainerIdxOf m) ++ "/volumeMounts" := by
    apply String.ext
    simp [volumeMountsOf, String.data_append]
  refine ⟨a ++ fsGroupOps m ++ sidecarOps m sc ++ ecrOps m ++ d ++ j, vm0, v0, _, rendered,
    hvm0, hv0, ?_, hall, hs, rfl, fun _ => ⟨rfl, ?_, rfl⟩, rfl, ?_, rfl⟩
  · cases volumesPreexist m
    · exact Or.inr rfl
    · exact Or.inl rfl
  · exact hadd
  · exact hcreate

/-- Witness for C16: a pod with Jaeger tracing; the volumeMount of its first secret mount
is appended. -/
theorem secret_volumeMount_create_or_append_witness :
    ∃ ops, GeneratePatchOps sampleEnv volumesMeta = Except.ok ops
      ∧ ∃ (before : List Patch) (vm0 v0 : String) (volumeOp : Patch)
        (rendered : List (String × String)),
        sampleEnv.renderSecretVolumeMount ⟨"certs", "/certs"⟩ = Except.ok vm0
        ∧ sampleEnv.renderSecretVolume ⟨"certs", "/certs"⟩ = Except.ok v0
        ∧ (volumeOp = Patch.add "volumes" v0 ∨ volumeOp = Patch.create "volumes" v0)
        ∧ List.Forall₂
            (fun secretMount r => sampleEnv.renderSecretVolumeMount secretMount = Except.ok r.1
              ∧ sampleEnv.renderSecretVolume secretMount = Except.ok r.2)
            [⟨"keys", "/keys"⟩] rendered
        ∧ secretStage sampleEnv volumesMeta = Except.ok
            ((if volumesMeta.Sidecar.EnableDatadogTracing = false ∧ volumesMeta.Sidecar.EnableJaegerTracing = false
                then Patch.create (volumeMountsOf (envoyContainerIdxOf volumesMeta)) vm0
                else Patch.add (volumeMountsOf (envoyContainerIdxOf volumesMeta)) vm0)
              :: volumeOp
              :: rendered.flatMap (fun r =>
                  [ Patch.add (volumeMountsOf (envoyContainerIdxOf volumesMeta)) r.1,
                    Patch.add "volumes" r.2]))
        ∧ ops = before
            ++ (if volumesMeta.Sidecar.EnableDatadogTracing = false ∧ volumesMeta.Sidecar.EnableJaegerTracing = false
                then Patch.create (volumeMountsOf (envoyContainerIdxOf volumesMeta)) vm0
                else Patch.add (volumeMountsOf (envoyContainerIdxOf volumesMeta)) vm0)
              :: volumeOp
              :: rendered.flatMap (fun r =>
                  [ Patch.add (volumeMountsOf (envoyContainerIdxOf volumesMeta)) r.1,
                    Patch.add "volumes" r.2])
        ∧ (∀ vm, ( Patch.add (volumeMountsOf (envoyContainerIdxOf volumesMeta)) vm).op = "add"
            ∧ ( Patch.add (volumeMountsOf (envoyContainerIdxOf volumesMeta)) vm).path
                = "/spec/containers/" ++ toString (envoyContainerIdxOf volumesMeta) ++ "/volumeMounts/-"
            ∧ ( Patch.add (volumeMountsOf (envoyContainerIdxOf volumesMeta)) vm).value = vm)
        ∧ ( Patch.create (volumeMountsOf (envoyContainerIdxOf volumesMeta)) vm0).op = "add"
        ∧ ( Patch.create (volumeMountsOf (envoyContainerIdxOf volumesMeta)) vm0).path
            = "/spec/containers/" ++ toString (envoyContainerIdxOf volumesMeta) ++ "/volumeMounts"
        ∧ ( Patch.create (volumeMountsOf (envoyContainerIdxOf volumesMeta)) vm0).value
            = "[" ++ vm0 ++ "]" :=
  ⟨_, rfl, secret_volumeMount_create_or_append sampleEnv volumesMeta _ ⟨"certs", "/certs"⟩
    [⟨"keys", "/keys"⟩] rfl rfl⟩

/-- C17. When `GeneratePatch` succeeds, in either injection mode, the output is the mode
operations, then the fsGroup operation if and only if `InjectFSGroup` is set, then the
sidecar operations and the rest.  The fsGroup operation is one `add` at
`/spec/securityContext/fsGroup` with the bare value `1337`, and no other operation has
that path. -/
theorem fsGroup_patch_iff_inject (env : Env) (m : Meta) (ops : List Patch)
    (h : GeneratePatchOps env m = Except.ok ops) :
    ∃ modeOps sidecars later,
      modeStage env m = Except.ok modeOps
      ∧ env.renderSidecars m.Sidecar = Except.ok sidecars
      ∧ ops = modeOps
          ++ (if m.InjectFSGroup then [ Patch.createElement "securityContext/fsGroup" "1337"]
              else [])
          ++ sidecarOps m sidecars ++ later
      ∧ (∀ p ∈ modeOps ++ sidecarOps m sidecars ++ later,
          p.path ≠ "/spec/securityContext/fsGroup")
      ∧ ops.countP (fun p => p.path = "/spec/securityContext/fsGroup")
          = (if m.InjectFSGroup then 1 else 0)
      ∧ ( Patch.createElement "securityContext/fsGroup" "1337").op = "add"
      ∧ ( Patch.createElement "securityContext/fsGroup" "1337").path
          = "/spec/securityContext/fsGroup"
      ∧ ( Patch.createElement "securityContext/fsGroup" "1337").value = "1337" := by
  rw [GeneratePatchOps_ok_iff] at h
  obtain ⟨a, sc, d, j, s, ha, hsc, hd, hj, hs, rfl⟩ := h
  have hothers : ∀ p ∈ a ++ sidecarOps m sc ++ (ecrOps m ++ d ++ j ++ s),
      p.path ≠ "/spec/securityContext/fsGroup" := by
    intro p hp
    simp only [List.mem_append] at hp
    rcases hp with (hp | hp) | (((hp | hp) | hp) | hp)
    · rcases modeStage_paths env m a ha p hp with h | h | h
      · exact ne_of_annotation_path _ _ h (by decide)
      · rw [h]; decide
      · rw [h]; decide
    · rcases sidecarOps_paths m sc p hp with h | h <;> rw [h] <;> decide
    · rcases ecrOps_paths m p hp with h | h <;> rw [h] <;> decide
    · rcases datadogStage_paths env m d hd p hp with h | h <;> rw [h] <;> decide
    · rcases jaegerStage_paths env m j hj p hp with h | h <;> rw [h] <;> decide
    · rcases secretStage_paths env m s hs p hp with h | h | h | h <;> rw [h] <;>
        cases m.AppendSidecar <;> decide
  refine ⟨a, sc, ecrOps m ++ d ++ j ++ s, ha, hsc, ?_, hothers, ?_, rfl, rfl, rfl⟩
  · rw [fsGroupOps_eq]
    simp only [List.append_assoc]
  · rw [fsGroupOps_eq]
    have hz : ∀ l : List Patch, (∀ p ∈ l, p.path ≠ "/spec/securityContext/fsGroup") →
        l.countP (fun p => p.path = "/spec/securityContext/fsGroup") = 0 := by
      intro l hl
      rw [List.countP_eq_zero]
      intro p hp
      simpa using hl p hp
    have h1 := hz a (fun p hp => hothers p (by simp [hp]))
    have h2 := hz (sidecarOps m sc) (fun p hp => hothers p (by simp [hp]))
    have h3 := hz (ecrOps m) (fun p hp => hothers p (by simp [hp]))
    have h4 := hz d (fun p hp => hothers p (by simp [hp]))
    have h5 := hz j (fun p hp => hothers p (by simp [hp]))
    have h6 := hz s (fun p hp => hothers p (by simp [hp]))
    simp only [List.countP_append, h1, h2, h3, h4, h5, h6]
    cases m.InjectFSGroup <;> simp [Patch.path]

/-- Witness for C17: the sample pod, which has `InjectFSGroup` set. -/
theorem fsGroup_patch_iff_inject_witness :
    ∃ ops, GeneratePatchOps sampleEnv sampleMeta = Except.ok ops
      ∧ ops.countP (fun p => p.path = "/spec/securityContext/fsGroup") = 1 :=
  ⟨_, rfl,
    (fsGroup_patch_iff_inject sampleEnv sampleMeta _ rfl).elim
      (fun _ h1 => h1.elim (fun _ h2 => h2.elim (fun _ h3 => h3.2.2.2.2.1)))⟩

/-- C18. When `GeneratePatch` succeeds and `renderSidecars` returns `sidecars`, the output
is `before ++ sidecar operations ++ after`, where no operation of `before` or `after` has
path `/spec/containers` or its append path.  With `AppendSidecar` the sidecar operations
are one append per rendered sidecar, in rendered order, each carrying that sidecar as its
value; without it they are the single create at `/spec/containers` whose value is `[` +
the sidecars joined by `,` + `]`. -/
theorem sidecar_patches (env : Env) (m : Meta) (ops : List Patch)
    (h : GeneratePatchOps env m = Except.ok ops) :
    ∃ sidecars before after,
      env.renderSidecars m.Sidecar = Except.ok sidecars
      ∧ ops = before
          ++ (if m.AppendSidecar then sidecars.map (fun sidecar => Patch.add "containers" sidecar)
              else [ Patch.create "containers" (",".intercalate sidecars)])
          ++ after
      ∧ (∀ p ∈ before ++ after, p.path ≠ "/spec/containers" ∧ p.path ≠ "/spec/containers/-")
      ∧ ops.countP (fun p => p.path = "/spec/containers/-")
          = (if m.AppendSidecar then sidecars.length else 0)
      ∧ ops.countP (fun p => p.path = "/spec/containers")
          = (if m.AppendSidecar then 0 else 1)
      ∧ (∀ sidecar, ( Patch.add "containers" sidecar).op = "add"
          ∧ ( Patch.add "containers" sidecar).path = "/spec/containers/-"
          ∧ ( Patch.add "containers" sidecar).value = sidecar)
      ∧ ( Patch.create "containers" (",".intercalate sidecars)).op = "add"
      ∧ ( Patch.create "containers" (",".intercalate sidecars)).path = "/spec/containers"
      ∧ ( Patch.create "containers" (",".intercalate sidecars)).value
          = "[" ++ ",".intercalate sidecars ++ "]" := by
  rw [GeneratePatchOps_ok_iff] at h
  obtain ⟨a, sc, d, j, s, ha, hsc, hd, hj, hs, rfl⟩ := h
  have hothers : ∀ p ∈ (a ++ fsGroupOps m) ++ (ecrOps m ++ d ++ j ++ s),
      p.path ≠ "/spec/containers" ∧ p.path ≠ "/spec/containers/-" := by
    intro p hp
    simp only [List.mem_append] at hp
    rcases hp with (hp | hp) | (((hp | hp) | hp) | hp)
    · rcases modeStage_paths env m a ha p hp with h | h | h
      · exact ⟨ne_of_annotation_path _ _ h (by decide),
          ne_of_annotation_path _ _ h (by decide)⟩
      · rw [h]; decide
      · rw [h]; decide
    · rw [fsGroupOps_paths m p hp]; decide
    · rcases ecrOps_paths m p hp with h | h <;> rw [h] <;> decide
    · rcases datadogStage_paths env m d hd p hp with h | h <;> rw [h] <;> decide
    · rcases jaegerStage_paths env m j hj p hp with h | h <;> rw [h] <;> decide
    · rcases secretStage_paths env m s hs p hp with h | h | h | h <;> rw [h] <;>
        cases m.AppendSidecar <;> decide
  have hz : ∀ (P : String) (l : List Patch), (∀ p ∈ l, p.path ≠ P) →
      l.countP (fun p => p.path = P) = 0 := by
    intro P l hl
    rw [List.countP_eq_zero]
    intro p hp
    simpa using hl p hp
  have hadd : ∀ (P : String) (l : List String), P = "/spec/containers/-" →
      (l.map (fun sidecar => Patch.add "containers" sidecar)).countP (fun p => p.path = P)
        = l.length := by
    intro P l hP
    subst hP
    induction l with
    | nil => rfl
    | cons x t ih => simp [List.countP_cons, Patch.path, ih]
  have hadd0 : ∀ l : List String,
      (l.map (fun sidecar => Patch.add "containers" sidecar)).countP
        (fun p => p.path = "/spec/containers") = 0 := by
    intro l
    apply hz
    intro p hp
    rw [List.mem_map] at hp
    obtain ⟨x, -, rfl⟩ := hp
    show "/spec/containers/-" ≠ "/spec/containers"
    decide
  refine ⟨sc, a ++ fsGroupOps m, ecrOps m ++ d ++ j ++ s, hsc, ?_, hothers, ?_, ?_,
    fun _ => ⟨rfl, rfl, rfl⟩, rfl, rfl, rfl⟩
  · unfold sidecarOps
    simp only [List.append_assoc]
  · have h1 := hz "/spec/containers/-" _ (fun p hp => (hothers p hp).2)
    simp only [List.countP_append] at h1 ⊢
    unfold sidecarOps
    cases m.AppendSidecar
    · simp only [Bool.false_eq_true, if_false]
      have : [ Patch.create "containers" (",".intercalate sc)].countP
          (fun p => p.path = "/spec/containers/-") = 0 := by
        simp [List.countP_cons, Patch.path]
      omega
    · simp only [if_true]
      have := hadd "/spec/containers/-" sc rfl
      omega
  · have h1 := hz "/spec/containers" _ (fun p hp => (hothers p hp).1)
    simp only [List.countP_append] at h1 ⊢
    unfold sidecarOps
    cases m.AppendSidecar
    · simp only [Bool.false_eq_true, if_false]
      have : [ Patch.create "containers" (",".intercalate sc)].countP
          (fun p => p.path = "/spec/containers") = 1 := by
        simp [List.countP_cons, Patch.path]
      omega
    · simp only [if_true]
      have := hadd0 sc
      omega

/-- Witness for C18: the sample pod with `AppendSidecar` off; one create carries the
rendered sidecar. -/
theorem sidecar_patches_witness :
    ∃ ops, GeneratePatchOps sampleEnv createSidecarMeta = Except.ok ops
      ∧ ops.countP (fun p => p.path = "/spec/containers") = 1
      ∧ ops.countP (fun p => p.path = "/spec/containers/-") = 0 :=
  ⟨_, rfl,
    (sidecar_patches sampleEnv createSidecarMeta _ rfl).elim
      (fun _ h1 => h1.elim (fun _ h2 => h2.elim
        (fun _ h3 => ⟨h3.2.2.2.2.1, h3.2.2.2.1⟩)))⟩

/-- C19, counterexample: with an absent existing map, visiting the entries `a`, `b` in
the two possible orders gives outputs that are not permutations of each other: the
map-creating operation carries the key visited first. -/
theorem annotationsPatches_absent_order_matters :
    [("a", "1"), ("b", "2")].Perm [("b", "2"), ("a", "1")]
    ∧ annotationsPatches none [("a", "1"), ("b", "2")]
        = [ Patch.createAnnotation "a" "1", Patch.updateAnnotation "add" "b" "2"]
    ∧ annotationsPatches none [("b", "2"), ("a", "1")]
        = [ Patch.createAnnotation "b" "2", Patch.updateAnnotation "add" "a" "1"]
    ∧ ¬ (annotationsPatches none [("a", "1"), ("b", "2")]).Perm
          (annotationsPatches none [("b", "2"), ("a", "1")]) :=
  ⟨by decide, by decide, by decide, by decide⟩

/-- C19, amended: when the existing annotation map is present, or when it is absent and
the two orders visit the same entry first, running `annotationsPatches` on two orders of
the same desired entries yields operation lists that are permutations of each other. -/
theorem annotationsPatches_perm (existing : Option GoMap)
    (order₁ order₂ : List (String × String)) (hperm : order₁.Perm order₂)
    (hfirst : existing ≠ none ∨ order₁.head? = order₂.head?) :
    (annotationsPatches existing order₁).Perm (annotationsPatches existing order₂) := by
  cases existing with
  | some ex =>
    rw [annotationsPatches_some, annotationsPatches_some]
    exact hperm.map _
  | none =>
    have hhead : order₁.head? = order₂.head? := by
      rcases hfirst with h | h
      · exact absurd rfl h
      · exact h
    cases order₁ with
    | nil =>
      have := hperm.symm.eq_nil
      subst this
      exact List.Perm.refl _
    | cons kv₁ r₁ =>
      cases order₂ with
      | nil => exact absurd hperm.eq_nil (by simp)
      | cons kv₂ r₂ =>
        simp only [List.head?_cons, Option.some.injEq] at hhead
        subst hhead
        obtain ⟨k, v⟩ := kv₁
        rw [annotationsPatches_none_cons, annotationsPatches_none_cons]
        exact List.Perm.cons _ ((List.perm_cons _).1 hperm |>.map _)

/-- Witness for C19, amended: two orders of two entries against a present map. -/
theorem annotationsPatches_perm_witness :
    (annotationsPatches (some [("a", "old")]) [("a", "1"), ("b", "2")]).Perm
      (annotationsPatches (some [("a", "old")]) [("b", "2"), ("a", "1")]) :=
  annotationsPatches_perm (some [("a", "old")]) [("a", "1"), ("b", "2")]
    [("b", "2"), ("a", "1")] (by decide) (Or.inl (by decide))

/-- C20. For every key, `escapeJSONPointer key` contains no `/`, and every `~` in it is
immediately followed by `0` or `1`; so the per-key annotation path, `/metadata/annotations/`
followed by the escaped key, has exactly three reference tokens, and every operation
`annotationsPatches` emits has that path shape, except the one that creates the map. -/
theorem escapeJSONPointer_single_token (key : String) (existing : Option GoMap)
    (desired : List (String × String)) :
    '/' ∉ (escapeJSONPointer key).data
    ∧ (∀ pre post : List Char, (escapeJSONPointer key).data = pre ++ '~' :: post →
        ∃ rest, post = '0' :: rest ∨ post = '1' :: rest)
    ∧ referenceTokenCount ("/metadata/annotations/" ++ escapeJSONPointer key) = 3
    ∧ (∀ p ∈ annotationsPatches existing desired,
        p.path = "/metadata/annotations" ∨ referenceTokenCount p.path = 3) := by
  have hcount : ∀ k : String,
      referenceTokenCount ("/metadata/annotations/" ++ escapeJSONPointer k) = 3 := by
    intro k
    unfold referenceTokenCount
    rw [String.data_append, List.count_append, List.count_eq_zero.2 (escape_no_slash k)]
    rfl
  refine ⟨escape_no_slash key, ?_, hcount key, ?_⟩
  · intro pre post h
    rw [escapeJSONPointer_data] at h
    exact escape_tilde_followed _ pre post h
  · intro p hp
    rcases annotationsLoop_mem _ _ _ p hp with h | ⟨k, v, rfl⟩ | ⟨o, k, v, rfl⟩
    · simp at h
    · exact Or.inl rfl
    · exact Or.inr (hcount k)

/-- Witness for C20: a key with both reserved characters, next to a plain key. -/
theorem escapeJSONPointer_single_token_witness :
    escapeJSONPointer "appmesh.k8s.aws/a~b" = "appmesh.k8s.aws~1a~0b"
    ∧ referenceTokenCount
        ( Patch.updateAnnotation "add" (escapeJSONPointer "appmesh.k8s.aws/a~b") "1").path = 3 :=
  ⟨by decide,
    ((escapeJSONPointer_single_token "appmesh.k8s.aws/a~b" (some [])
        [("appmesh.k8s.aws/a~b", "1")]).2.2.2
      ( Patch.updateAnnotation "add" (escapeJSONPointer "appmesh.k8s.aws/a~b") "1")
      (by decide)).resolve_left (by decide)⟩

end patch
